import Mathlib

/-!
# Verification of the contract-amendment workflow core (clm-project)

Shallow embedding of the multi-party contract-amendment workflow:
the workflow state (`backend/app/core/graph_state.py`), the routing
predicates (`backend/app/core/conditions/__init__.py`), the party review
node and party agents (`backend/app/core/orchestrator.py`,
`backend/app/core/nodes/party_node.py`), and the conflict lifecycle
(`backend/app/core/nodes/conflict_resolution_node.py`).

Conventions of the embedding:
* Python `dict[str, T]` becomes an insertion-ordered association list
  `List (String × T)`; `dictSet` overwrites in place (preserving position)
  exactly as CPython dict assignment does.
* `datetime.utcnow()` timestamps become an abstract clock value passed as a
  `now : Nat` argument to every operation that stamps `updated_at`.
* Generated UUIDs become explicit id arguments (`cid`, or generators
  `gen : Nat → String`); the claims settled here do not depend on the
  literal id values, only on their freshness, which appears as a hypothesis
  where a proof needs it.
* Heterogeneous Python values stored in `Dict[str, Any]` fields
  (counter-proposals, risk assessments, proposed changes) are modelled by
  the inductive `PyVal` of strings, lists and dicts, together with a
  Python-`str()`-style renderer used by the keyword heuristics in the
  routing conditions.
* Python float comparisons on the config thresholds are modelled over `ℚ`;
  every literal the code compares (0.8, 1.0, ratios of small naturals) is
  exactly representable, so the comparisons agree with the float ones.
* Fields that no embedded routine reads (metrics, document_versions,
  node_outputs bookkeeping, message logs, execution history) are omitted;
  `log_execution`, progress recomputation and the `node_outputs` status
  log inside `update_status` write only to those omitted fields.
-/

namespace CLM

/-! ## Python dict and string helpers -/

/-- Lookup in an insertion-ordered dict (`d[k]` / `d.get(k)`). -/
def dictGet {α : Type} (d : List (String × α)) (k : String) : Option α :=
  (d.find? (fun p => p.1 == k)).map (·.2)

/-- Python `k in d`. -/
def dictContains {α : Type} (d : List (String × α)) (k : String) : Bool :=
  d.any (fun p => p.1 == k)

/-- Python `d[k] = v`: overwrite in place if the key exists, else append. -/
def dictSet {α : Type} (d : List (String × α)) (k : String) (v : α) :
    List (String × α) :=
  if d.any (fun p => p.1 == k) then
    d.map (fun p => if p.1 == k then (k, v) else p)
  else d ++ [(k, v)]

/-- `pat` starts the list `l` (used to implement substring search). -/
def charsLead : List Char → List Char → Bool
  | [], _ => true
  | _ :: _, [] => false
  | a :: as, b :: bs => a == b && charsLead as bs

/-- `pat` occurs somewhere inside `l`. -/
def charsSub (pat : List Char) : List Char → Bool
  | [] => pat.isEmpty
  | b :: bs => charsLead pat (b :: bs) || charsSub pat bs

/-- Python `pat in hay` for strings (substring containment). -/
def strHasSub (hay pat : String) : Bool :=
  charsSub pat.toList hay.toList

/-- Python `s.lower()`: per-character lowercasing (the content the source
lowercases — rendered dicts and fixed keyword lists — is ASCII, where this
agrees with Python's Unicode lowercasing). -/
def strToLower (s : String) : String :=
  String.mk (s.data.map Char.toLower)

/-! ## Heterogeneous Python values

`PyVal` models the `Any`-typed values that the source stores in
`Dict[str, Any]` fields.  The renderer below mirrors Python's `str()` on
these values (single-quoted strings, `[...]` lists, `{...}` dicts), which
is what `_requires_legal_review_by_content` and
`_contains_significant_financial_changes` run their keyword search over. -/

inductive PyVal where
  | str : String → PyVal
  | list : List PyVal → PyVal
  | dict : List (String × PyVal) → PyVal
deriving Repr

/-- A Python dict whose values are arbitrary (`Dict[str, Any]`). -/
abbrev PyDict := List (String × PyVal)

mutual

/-- Python `str()` / `repr()` of a heterogeneous value. -/
def pyReprVal : PyVal → String
  | .str s => "'" ++ s ++ "'"
  | .list l => "[" ++ pyReprListInner l ++ "]"
  | .dict d => "\x7b" ++ pyReprDictInner d ++ "\x7d"

/-- Comma-separated rendering of the elements of a Python list. -/
def pyReprListInner : List PyVal → String
  | [] => ""
  | [v] => pyReprVal v
  | v :: w :: rest => pyReprVal v ++ ", " ++ pyReprListInner (w :: rest)

/-- Comma-separated rendering of the entries of a Python dict. -/
def pyReprDictInner : List (String × PyVal) → String
  | [] => ""
  | [(k, v)] => "'" ++ k ++ "': " ++ pyReprVal v
  | (k, v) :: e :: rest =>
      "'" ++ k ++ "': " ++ pyReprVal v ++ ", " ++ pyReprDictInner (e :: rest)

end

/-- Python `str(d)` for a `Dict[str, Any]`. -/
def pyReprDict (d : PyDict) : String := pyReprVal (.dict d)

/-- Python `str(l)` for a list of dicts (the comprehension
`[r.proposed_changes for r in ... if r.proposed_changes]`). -/
def pyReprDictList (l : List PyDict) : String :=
  pyReprVal (.list (l.map .dict))

/-! ## Data model (`graph_state.py`) -/

/-- `AmendmentStatus` enumeration. -/
inductive AmendmentStatus where
  | initiated
  | parties_notified
  | under_review
  | conflicts_detected
  | conflict_resolution
  | consensus_building
  | legal_review
  | final_approval
  | approved
  | rejected
  | completed
  | failed
deriving DecidableEq, Repr

/-- `PartyResponse`: one party's response to the proposal.  The `timestamp`
field (a wall-clock default) is omitted; no embedded routine reads it. -/
structure PartyResponse where
  party_id : String
  organization : String
  status : String
  comments : Option String := none
  proposed_changes : Option PyDict := none
  conditions : Option (List String) := none
  risk_assessment : Option PyDict := none
deriving Repr

/-- `ConflictInfo`: a recorded disagreement.  `created_at` is omitted;
`conflict_id` is supplied explicitly where the source draws a UUID. -/
structure ConflictInfo where
  conflict_id : String
  conflict_type : String
  description : String
  affected_parties : List String
  affected_clauses : List String
  severity : String
  resolution_suggestions : Option (List String) := none
  resolution_status : String := "unresolved"
deriving Repr

/-- An entry of the `errors` list (the source appends dicts holding at
least a `node` and an `error` message; timestamps are omitted). -/
structure ErrorEntry where
  node : String
  error : String
deriving DecidableEq, Repr

/-- The `workflow_config` dict, restricted to the keys the embedded code
reads (each access in the source is `config.get(key, default)`, so each
field is optional; the defaults live at the call sites, as in the source).
The keys `timeout_minutes`, `conflict_resolution_timeout` and
`enable_ai_mediation` are never read by the embedded routines and are
omitted. -/
structure WorkflowConfig where
  auto_approve_threshold : Option ℚ := none
  max_review_rounds : Option Nat := none
  require_legal_review : Option Bool := none
  max_retries : Option Nat := none
deriving Repr

/-- The dict produced by `AmendmentWorkflowState.workflow_config`'s
`default_factory` (it contains no `max_retries` key). -/
def defaultWorkflowConfig : WorkflowConfig :=
  { auto_approve_threshold := some (4/5 : ℚ)
    max_review_rounds := some 2
    require_legal_review := some true }

/-- `AmendmentWorkflowState`, restricted to the fields the embedded
routines read or write.  `compliance_checks` keeps only the
`compliance_status` entry (the sole key any embedded routine reads). -/
structure AmendmentWorkflowState where
  status : AmendmentStatus := .initiated
  review_rounds : Nat := 0
  parties : List String
  party_responses : List (String × PartyResponse) := []
  received_approvals : List String := []
  proposed_changes : PyDict := []
  final_document : Option String := none
  conflicts : List ConflictInfo := []
  active_conflicts : List String := []
  resolved_conflicts : List String := []
  legal_review_status : String := "pending"
  compliance_checks : List (String × String) := []
  errors : List ErrorEntry := []
  retry_count : Nat := 0
  workflow_config : WorkflowConfig := defaultWorkflowConfig
  updated_at : Nat := 0
deriving Repr

namespace AmendmentWorkflowState

/-- `update_status`: set the status and stamp `updated_at` (the
status-change record pushed into `node_outputs` and the progress
recomputation touch only omitted fields). -/
def update_status (s : AmendmentWorkflowState) (st : AmendmentStatus)
    (now : Nat) : AmendmentWorkflowState :=
  { s with status := st, updated_at := now }

/-- `add_party_response`: store (or overwrite) the party's response, and
maintain `received_approvals` exactly as the source does. -/
def add_party_response (s : AmendmentWorkflowState) (pid : String)
    (r : PartyResponse) (now : Nat) : AmendmentWorkflowState :=
  let s := { s with party_responses := dictSet s.party_responses pid r }
  let s :=
    if r.status = "approved" then
      if pid ∈ s.received_approvals then s
      else { s with received_approvals := s.received_approvals ++ [pid] }
    else
      if pid ∈ s.received_approvals then
        { s with received_approvals := s.received_approvals.erase pid }
      else s
  { s with updated_at := now }

/-- `add_conflict`: append the conflict and record its id as active if it
is not already there. -/
def add_conflict (s : AmendmentWorkflowState) (c : ConflictInfo)
    (now : Nat) : AmendmentWorkflowState :=
  { s with
    conflicts := s.conflicts ++ [c]
    active_conflicts :=
      if c.conflict_id ∈ s.active_conflicts then s.active_conflicts
      else s.active_conflicts ++ [c.conflict_id]
    updated_at := now }

/-- The loop body of `resolve_conflict`: find the first conflict with the
given id and mark it resolved; `none` when no conflict matches. -/
def resolveConflictList : List ConflictInfo → String → Option (List ConflictInfo)
  | [], _ => none
  | c :: rest, cid =>
      if c.conflict_id = cid then
        some ({ c with resolution_status := "resolved" } :: rest)
      else (resolveConflictList rest cid).map (c :: ·)

/-- `resolve_conflict`: returns the Python function's boolean result
together with the updated state.  On a match the id is removed from
`active_conflicts` (Python `list.remove`: first occurrence) and appended
to `resolved_conflicts` if absent; on no match nothing changes and no
timestamp is written. -/
def resolve_conflict (s : AmendmentWorkflowState) (cid : String)
    (now : Nat) : Bool × AmendmentWorkflowState :=
  match resolveConflictList s.conflicts cid with
  | none => (false, s)
  | some cs =>
      (true,
        { s with
          conflicts := cs
          active_conflicts := s.active_conflicts.erase cid
          resolved_conflicts :=
            if cid ∈ s.resolved_conflicts then s.resolved_conflicts
            else s.resolved_conflicts ++ [cid]
          updated_at := now })

/-- `get_pending_parties`: parties with no response entry, or whose
response status is literally `"pending"`. -/
def get_pending_parties (s : AmendmentWorkflowState) : List String :=
  s.parties.filter (fun p =>
    match dictGet s.party_responses p with
    | none => true
    | some r => r.status == "pending")

/-- `is_consensus_reached`: false for an empty party list; otherwise every
party must have a response whose status is in `["approved"]`. -/
def is_consensus_reached (s : AmendmentWorkflowState) : Bool :=
  if s.parties.isEmpty then false
  else
    s.parties.all (fun p =>
      match dictGet s.party_responses p with
      | none => false
      | some r => r.status == "approved")

/-- `has_active_conflicts`. -/
def has_active_conflicts (s : AmendmentWorkflowState) : Bool :=
  s.active_conflicts.length > 0

end AmendmentWorkflowState

open AmendmentWorkflowState

/-! ## Claim C1: `is_consensus_reached` characterization -/

/-- **C1.** For every workflow state, `is_consensus_reached` returns true
iff `parties` is non-empty and every party in `parties` has an entry in
`party_responses` whose status is exactly `"approved"`. -/
theorem consensus_iff (s : AmendmentWorkflowState) :
    s.is_consensus_reached = true ↔
      s.parties ≠ [] ∧
        ∀ p ∈ s.parties, ∃ r, dictGet s.party_responses p = some r ∧
          r.status = "approved" := by
  unfold AmendmentWorkflowState.is_consensus_reached
  by_cases hne : s.parties.isEmpty = true
  · simp only [if_pos hne]
    constructor
    · intro h; simp at h
    · rintro ⟨hp, -⟩; exact absurd (List.isEmpty_iff.mp hne) hp
  · simp only [if_neg hne, List.all_eq_true]
    have hpe : s.parties ≠ [] := fun h => hne (by simp [h])
    constructor
    · intro h
      refine ⟨hpe, fun p hp => ?_⟩
      have hthis := h p hp
      cases hg : dictGet s.party_responses p with
      | none => rw [hg] at hthis; simp at hthis
      | some r =>
          rw [hg] at hthis
          exact ⟨r, rfl, by simpa using hthis⟩
    · rintro ⟨-, h⟩ p hp
      obtain ⟨r, hr, hst⟩ := h p hp
      rw [hr]
      simpa using hst

/-! ## Claim C10: `resolve_conflict` on an unknown id is a no-op -/

theorem resolveConflictList_eq_none {cs : List ConflictInfo} {cid : String}
    (h : ∀ c ∈ cs, c.conflict_id ≠ cid) :
    resolveConflictList cs cid = none := by
  induction cs with
  | nil => rfl
  | cons c rest ih =>
      have hc : c.conflict_id ≠ cid := h c (by simp)
      simp only [resolveConflictList, if_neg hc]
      rw [ih (fun c' hc' => h c' (by simp [hc']))]
      rfl

/-- **C10.** If `conflict_id` matches no recorded conflict, then
`resolve_conflict` returns `False` and leaves the state — `conflicts`,
`active_conflicts`, `resolved_conflicts` and `updated_at` included —
completely unchanged. -/
theorem resolve_conflict_missing_id_noop (s : AmendmentWorkflowState)
    (cid : String) (now : Nat)
    (h : ∀ c ∈ s.conflicts, c.conflict_id ≠ cid) :
    s.resolve_conflict cid now = (false, s) := by
  unfold AmendmentWorkflowState.resolve_conflict
  rw [resolveConflictList_eq_none h]

/-- Witness for C10 at a concrete state: one recorded conflict `"c1"`,
resolving the unknown id `"zz"` returns `False` and changes nothing. -/
theorem resolve_conflict_missing_id_noop_witness :
    ({ parties := ["p1"]
       conflicts := [{ conflict_id := "c1", conflict_type := "unacceptable_terms",
                       description := "d", affected_parties := ["p1"],
                       affected_clauses := ["general"], severity := "medium" }]
       active_conflicts := ["c1"] } :
        AmendmentWorkflowState).resolve_conflict "zz" 9 =
      (false,
        { parties := ["p1"]
          conflicts := [{ conflict_id := "c1", conflict_type := "unacceptable_terms",
                          description := "d", affected_parties := ["p1"],
                          affected_clauses := ["general"], severity := "medium" }]
          active_conflicts := ["c1"] }) :=
  resolve_conflict_missing_id_noop _ "zz" 9 (by decide)

/-! ## Claim C7: characterization of `get_pending_parties` -/

/-- Concrete state for the C7 counterexample: one party whose response
status is `"pending_re_review"` (none of approved/rejected/
requested_changes, yet not literally `"pending"`). -/
def cs7 : AmendmentWorkflowState :=
  { parties := ["p1"]
    party_responses :=
      [("p1", { party_id := "p1", organization := "Org1",
                status := "pending_re_review" })] }

/-- **C7, counterexample.** The claim says a party is pending iff it has
no response or its status is none of approved/rejected/requested_changes.
At `cs7`, party `"p1"` has status `"pending_re_review"` — none of the
three — so the claim puts it in the pending list, but
`get_pending_parties` (which tests for the literal `"pending"`) omits it. -/
theorem pending_parties_cex :
    "p1" ∈ cs7.parties ∧
    (dictGet cs7.party_responses "p1").map PartyResponse.status =
      some "pending_re_review" ∧
    "pending_re_review" ∉ (["approved", "rejected", "requested_changes"] : List String) ∧
    "p1" ∉ cs7.get_pending_parties := by decide

/-- **C7, amended.** `get_pending_parties` returns exactly the parties with
no current response entry or whose entry's status is exactly `"pending"`
(not merely "none of approved/rejected/requested_changes"). -/
theorem pending_parties_iff (s : AmendmentWorkflowState) (p : String) :
    p ∈ s.get_pending_parties ↔
      p ∈ s.parties ∧
        (dictGet s.party_responses p = none ∨
          ∃ r, dictGet s.party_responses p = some r ∧ r.status = "pending") := by
  unfold AmendmentWorkflowState.get_pending_parties
  rw [List.mem_filter]
  constructor
  · rintro ⟨hp, hpred⟩
    refine ⟨hp, ?_⟩
    cases hg : dictGet s.party_responses p with
    | none => exact Or.inl rfl
    | some r =>
        rw [hg] at hpred
        exact Or.inr ⟨r, rfl, by simpa using hpred⟩
  · rintro ⟨hp, hnone | ⟨r, hr, hst⟩⟩
    · exact ⟨hp, by rw [hnone]⟩
    · refine ⟨hp, ?_⟩
      rw [hr]
      simpa using hst

/-! ## Routing conditions (`conditions/__init__.py`) -/

/-- Python truthiness of an `Optional[str]` (`None` and `""` are falsy). -/
def truthyStr : Option String → Bool
  | none => false
  | some s => !s.isEmpty

/-- Python truthiness of an `Optional[Dict]` (`None` and `{}` are falsy). -/
def truthyDict : Option PyDict → Bool
  | none => false
  | some d => !d.isEmpty

/-- `_is_recoverable_error`: keyword match on the lower-cased message. -/
def is_recoverable_error (e : ErrorEntry) : Bool :=
  ["timeout", "connection reset", "rate limit exceeded",
   "temporary unavailable", "service unavailable",
   "network error", "connection error", "retry"].any
    (fun pat => strHasSub (strToLower e.error) pat)

/-- `should_retry_workflow`.  Python compares
`recoverable_errors > len(recent_errors) / 2` with true (float) division;
over at most three errors this is exactly `2 * recoverable > len`. -/
def should_retry_workflow (s : AmendmentWorkflowState) : Bool :=
  let maxRetries := s.workflow_config.max_retries.getD 3
  if s.retry_count ≥ maxRetries then false
  else if s.errors.isEmpty then false
  else
    let recent :=
      if s.errors.length ≥ 3 then s.errors.drop (s.errors.length - 3)
      else s.errors
    let recoverable := (recent.filter is_recoverable_error).length
    if 2 * recoverable > recent.length then true
    else if s.status = .failed then
      let latest := (s.errors.getLast?).elim "" (·.error)
      ["timeout", "connection", "rate limit", "temporary",
       "unavailable", "retry", "network"].any
        (fun k => strHasSub (strToLower latest) k)
    else false

/-- `_meets_auto_completion_criteria`. -/
def meets_auto_completion_criteria (s : AmendmentWorkflowState) : Bool :=
  let threshold := s.workflow_config.auto_approve_threshold.getD 1
  if threshold < 1 then
    let total := s.parties.length
    let approvedCount :=
      (s.party_responses.filter (fun pr => pr.2.status == "approved")).length
    let rate : ℚ := if total > 0 then (approvedCount : ℚ) / (total : ℚ) else 0
    decide (rate ≥ threshold)
  else false

/-- `should_complete_workflow`. -/
def should_complete_workflow (s : AmendmentWorkflowState) : Bool :=
  if !truthyStr s.final_document then false
  else if !s.is_consensus_reached then false
  else if s.active_conflicts.length > 0 then false
  else if s.workflow_config.require_legal_review.getD false = true ∧
      s.legal_review_status ≠ "approved" then false
  else if s.status = .final_approval ∨ s.status = .approved then true
  else meets_auto_completion_criteria s

/-- `_detect_response_conflicts`, reduced to the tags of the conflict
dicts it builds (callers only test the list for emptiness). -/
def detect_response_conflicts (s : AmendmentWorkflowState) : List String :=
  let responses := s.party_responses.map (·.2)
  let approveCount := (responses.filter (fun r => r.status == "approved")).length
  let rejectCount := (responses.filter (fun r => r.status == "rejected")).length
  let statusConf :=
    if approveCount > 0 ∧ rejectCount > 0 then ["status_conflict"] else []
  let changed := responses.filter (fun r => truthyDict r.proposed_changes)
  let changesConf :=
    if changed.length > 1 then ["proposed_changes_conflict"] else []
  statusConf ++ changesConf

/-- The comprehension
`[r.proposed_changes for r in responses if r.proposed_changes]`,
rendered with Python `str()` for the content keyword search. -/
def responsesChangesRepr (s : AmendmentWorkflowState) : String :=
  pyReprDictList ((s.party_responses.map (·.2)).filterMap (fun r =>
    match r.proposed_changes with
    | none => none
    | some d => if d.isEmpty then none else some d))

/-- `_contains_significant_financial_changes`. -/
def contains_significant_financial_changes (s : AmendmentWorkflowState) : Bool :=
  let content := strToLower (pyReprDict s.proposed_changes)
  ["$", "dollar", "payment", "budget", "cost", "fee", "price"].any
    (strHasSub content)

/-- `_requires_legal_review_by_content`: keyword search over the
`str()`-rendered proposed changes and party counter-proposals. -/
def requires_legal_review_by_content (s : AmendmentWorkflowState) : Bool :=
  let contentText :=
    strToLower ((pyReprDict s.proposed_changes) ++ " " ++ responsesChangesRepr s)
  let kw := ["liability", "indemnification", "termination",
    "intellectual property", "confidentiality", "non-compete", "arbitration",
    "governing law", "force majeure", "warranty", "damages"]
  if kw.any (strHasSub contentText) then true
  else contains_significant_financial_changes s

/-- `_get_approved_changes`. -/
def get_approved_changes (s : AmendmentWorkflowState) :
    List (String × PyDict) :=
  s.party_responses.filterMap (fun pr =>
    if pr.2.status = "approved" then
      match pr.2.proposed_changes with
      | some d => if d.isEmpty then none else some (pr.1, d)
      | none => none
    else none)

/-- `should_route_to_parties`. -/
def should_route_to_parties (s : AmendmentWorkflowState) : Bool :=
  if s.status = .initiated then true
  else if s.status = .parties_notified then
    decide (s.party_responses.length < s.parties.length)
  else if s.status = .conflict_resolution ∧ s.active_conflicts.length = 0 then
    true
  else if s.get_pending_parties ≠ [] ∧ s.status = .under_review then true
  else false

/-- `should_route_to_conflict_resolution`. -/
def should_route_to_conflict_resolution (s : AmendmentWorkflowState) : Bool :=
  if s.active_conflicts.length > 0 then true
  else if s.status = .conflicts_detected then true
  else if s.party_responses.length ≥ 2 ∧ detect_response_conflicts s ≠ [] then
    true
  else if s.status = .legal_review ∧
      dictGet s.compliance_checks "compliance_status" = some "non_compliant" then
    true
  else false

/-- `should_route_to_legal_review`. -/
def should_route_to_legal_review (s : AmendmentWorkflowState) : Bool :=
  if s.workflow_config.require_legal_review.getD false = true ∧
      s.is_consensus_reached ∧ s.active_conflicts.length = 0 then true
  else if requires_legal_review_by_content s ∧ s.is_consensus_reached then true
  else if s.parties.length ≥ 3 ∧ s.proposed_changes.length ≥ 3 ∧
      s.is_consensus_reached then true
  else if s.status = .legal_review then true
  else false

/-- `should_route_to_version_control`. -/
def should_route_to_version_control (s : AmendmentWorkflowState) : Bool :=
  if ¬(s.is_consensus_reached = true ∧ s.active_conflicts.length = 0) then false
  else if s.workflow_config.require_legal_review.getD false = true ∧
      s.legal_review_status ≠ "approved" then false
  else if (get_approved_changes s).isEmpty = true then false
  else if s.status = .consensus_building then true
  else if s.status = .legal_review ∧ s.legal_review_status = "approved" then true
  else false

/-- `should_route_back_to_coordinator`. -/
def should_route_back_to_coordinator (s : AmendmentWorkflowState) : Bool :=
  decide
    ((0 < s.party_responses.length ∧
        s.party_responses.length < s.parties.length ∧
        s.status = .under_review) ∨
      (s.conflicts.length > s.active_conflicts.length ∧
        s.active_conflicts.length > 0) ∨
      (s.legal_review_status ∉ (["approved", "rejected"] : List String) ∧
        s.status = .legal_review))

/-- `get_next_node_from_state`: the aggregate routing decision. -/
def get_next_node_from_state (s : AmendmentWorkflowState) : String :=
  if s.errors ≠ [] ∧ should_retry_workflow s = true then "error_handler"
  else if should_complete_workflow s then "completion"
  else if should_route_to_conflict_resolution s then "conflict_resolution"
  else if should_route_to_legal_review s then "legal_review"
  else if should_route_to_version_control s then "version_control"
  else if should_route_to_parties s then "party_review"
  else if should_route_back_to_coordinator s then "coordinator"
  else "coordinator"

/-! ## Claim C3: completion routing -/

/-- Concrete state for the C3 counterexample: all four completion criteria
of the claim hold (final document set, consensus, no active conflicts,
legal review not required) and no errors are present, but the status is
still `initiated` and the auto-approve threshold is `1.0`. -/
def cs3 : AmendmentWorkflowState :=
  { parties := ["p1"]
    party_responses :=
      [("p1", { party_id := "p1", organization := "Org1",
                status := "approved" })]
    final_document := some "doc"
    workflow_config :=
      { require_legal_review := some false, auto_approve_threshold := some 1 } }

/-- **C3, counterexample.**  At `cs3` the error-retry branch is not taken
and all completion criteria named by the claim hold, yet the router
returns `"party_review"`, not `"completion"`: `should_complete_workflow`
additionally requires the status to be `final_approval`/`approved` or the
auto-completion threshold to be strictly below 1. -/
theorem completion_routing_cex :
    cs3.errors = [] ∧
    truthyStr cs3.final_document = true ∧
    cs3.is_consensus_reached = true ∧
    cs3.active_conflicts = [] ∧
    (cs3.workflow_config.require_legal_review.getD false = true →
      cs3.legal_review_status = "approved") ∧
    get_next_node_from_state cs3 = "party_review" := by decide

/-- **C3, amended.**  If the error-retry branch is not taken and the
completion criteria hold — final document set, consensus reached, no
active conflicts, legal review approved whenever required — **and** the
status is `final_approval`/`approved` or the auto-completion criteria are
met, then the aggregate routing function returns `"completion"`. -/
theorem completion_routing_amended (s : AmendmentWorkflowState)
    (hretry : s.errors = [] ∨ should_retry_workflow s = false)
    (hdoc : truthyStr s.final_document = true)
    (hcons : s.is_consensus_reached = true)
    (hact : s.active_conflicts = [])
    (hlegal : s.workflow_config.require_legal_review.getD false = true →
      s.legal_review_status = "approved")
    (hstat : s.status = .final_approval ∨ s.status = .approved ∨
      meets_auto_completion_criteria s = true) :
    get_next_node_from_state s = "completion" := by
  have hc : should_complete_workflow s = true := by
    unfold should_complete_workflow
    rw [hdoc, hcons, hact]
    rw [if_neg (by simp), if_neg (by simp), if_neg (by simp)]
    by_cases h1 : s.workflow_config.require_legal_review.getD false = true ∧
        s.legal_review_status ≠ "approved"
    · exact absurd (hlegal h1.1) h1.2
    rw [if_neg h1]
    by_cases h2 : s.status = .final_approval ∨ s.status = .approved
    · rw [if_pos h2]
    · rw [if_neg h2]
      rcases hstat with h | h | h
      · exact absurd (Or.inl h) h2
      · exact absurd (Or.inr h) h2
      · exact h
  have hng : ¬(s.errors ≠ [] ∧ should_retry_workflow s = true) := by
    rcases hretry with h | h
    · exact fun hand => hand.1 h
    · intro hand
      rw [h] at hand
      exact absurd hand.2 (by simp)
  unfold get_next_node_from_state
  rw [if_neg hng, if_pos hc]

/-- Concrete input for the C3 witness: as `cs3` but with status
`final_approval`. -/
def cs3w : AmendmentWorkflowState :=
  { cs3 with status := .final_approval }

/-- Witness for the amended C3 at `cs3w`. -/
theorem completion_routing_amended_witness :
    get_next_node_from_state cs3w = "completion" :=
  completion_routing_amended cs3w (Or.inl rfl) (by decide) (by decide)
    rfl (by decide) (Or.inl rfl)

/-! ## Conflict detection (`conflict_resolution_node._identify_conflicts`)

The detector walks `party_responses` once; the skip set
`existing_conflict_parties` is computed once, up front, from **all**
recorded conflicts (resolved or not), exactly as in the source.  Each
created `ConflictInfo` draws a fresh UUID, modelled by the generator
`gen : Nat → String` applied to a running counter. -/

/-- The set (as a list) of parties already appearing in any recorded
conflict, resolved or not. -/
def existing_conflict_parties (s : AmendmentWorkflowState) : List String :=
  (s.conflicts.map (·.affected_parties)).flatten

/-- Affected clauses drawn from a party's counter-proposal: the `clause`
entries of `proposed_changes["proposed_modifications"]`.  Modelled on the
pydantic-typed domain where `proposed_modifications` is a list of dicts
and each present `clause` value is a string. -/
def identifyClauses (pc : Option PyDict) : List String :=
  match pc with
  | none => []
  | some d =>
      if d.isEmpty then []
      else
        match dictGet d "proposed_modifications" with
        | some (.list mods) =>
            mods.filterMap (fun m =>
              match m with
              | .dict md =>
                  match dictGet md "clause" with
                  | some (.str c) => some c
                  | _ => none
              | _ => none)
        | _ => []

/-- Conflict description: `response.comments or "No specific comments
provided."`, prefixed by the decision kind. -/
def identifyDescription (r : PartyResponse) : String :=
  let base :=
    match r.comments with
    | none => "No specific comments provided."
    | some c => if c.isEmpty then "No specific comments provided." else c
  if r.status = "requested_changes" then "Requested changes: " ++ base
  else "Rejected due to: " ++ base

/-- Severity from the party's risk assessment: the
`overall_risk_level` entry through `severity_map = {high, medium, low}`
with default `"medium"`. -/
def identifySeverity (r : PartyResponse) : String :=
  match r.risk_assessment with
  | none => "medium"
  | some ra =>
      if ra.isEmpty then "medium"
      else
        match dictGet ra "overall_risk_level" with
        | some (.str lvl) =>
            if lvl = "high" then "high"
            else if lvl = "medium" then "medium"
            else if lvl = "low" then "low"
            else "medium"
        | _ => "medium"

/-- The `ConflictInfo` synthesized for a rejecting / changes-requesting
party (`cid` is the UUID the constructor would draw). -/
def mkDetectedConflict (pid : String) (r : PartyResponse) (cid : String) :
    ConflictInfo :=
  { conflict_id := cid
    conflict_type :=
      if r.status = "rejected" then "unacceptable_terms" else "counter_proposal"
    description := identifyDescription r
    affected_parties := [pid]
    affected_clauses :=
      (if (identifyClauses r.proposed_changes).isEmpty then ["general"]
       else identifyClauses r.proposed_changes)
    severity := identifySeverity r
    resolution_suggestions := some
      [if r.status = "requested_changes" then "Review counter-proposals"
       else "Re-evaluate proposal based on rejection feedback"]
    resolution_status := "unresolved" }

/-- Response statuses that trigger conflict creation. -/
def badStatus (r : PartyResponse) : Bool :=
  r.status == "rejected" || r.status == "requested_changes"

open AmendmentWorkflowState in
/-- The `for party_id, response in state.party_responses.items()` loop of
`_identify_conflicts` (the skip set `existing` is fixed up front). -/
def identifyLoop (existing : List String) (gen : Nat → String) (now : Nat) :
    List (String × PartyResponse) → AmendmentWorkflowState → Nat →
      AmendmentWorkflowState
  | [], s, _ => s
  | (pid, r) :: rest, s, k =>
      if pid ∈ existing then identifyLoop existing gen now rest s k
      else if badStatus r = true then
        identifyLoop existing gen now rest
          (s.add_conflict (mkDetectedConflict pid r (gen k)) now) (k + 1)
      else identifyLoop existing gen now rest s k

/-- `_identify_conflicts`. -/
def identify_conflicts (s : AmendmentWorkflowState) (gen : Nat → String)
    (now : Nat) : AmendmentWorkflowState :=
  identifyLoop (existing_conflict_parties s) gen now s.party_responses s 0

/-! Structural lemmas about the detection loop. -/

theorem identifyLoop_party_responses (existing : List String)
    (gen : Nat → String) (now : Nat) (resp : List (String × PartyResponse))
    (s : AmendmentWorkflowState) (k : Nat) :
    (identifyLoop existing gen now resp s k).party_responses =
      s.party_responses := by
  induction resp generalizing s k with
  | nil => rfl
  | cons pr rest ih =>
      obtain ⟨pid, r⟩ := pr
      unfold identifyLoop
      split_ifs with h1 h2
      · exact ih s k
      · exact ih _ _
      · exact ih s k

theorem identifyLoop_new_conflicts (existing : List String)
    (gen : Nat → String) (now : Nat) (resp : List (String × PartyResponse))
    (s : AmendmentWorkflowState) (k : Nat) :
    ∃ t, (identifyLoop existing gen now resp s k).conflicts =
        s.conflicts ++ t ∧
      ∀ c ∈ t, ∃ pid2 r2 k2, (pid2, r2) ∈ resp ∧
        c = mkDetectedConflict pid2 r2 (gen k2) := by
  induction resp generalizing s k with
  | nil => exact ⟨[], by simp [identifyLoop]⟩
  | cons pr rest ih =>
      obtain ⟨pid, r⟩ := pr
      unfold identifyLoop
      split_ifs with h1 h2
      · obtain ⟨t, ht, hall⟩ := ih s k
        exact ⟨t, ht, fun c hc => by
          obtain ⟨p2, r2, k2, hmem, hceq⟩ := hall c hc
          exact ⟨p2, r2, k2, List.mem_cons_of_mem _ hmem, hceq⟩⟩
      · obtain ⟨t, ht, hall⟩ :=
          ih (s.add_conflict (mkDetectedConflict pid r (gen k)) now) (k + 1)
        refine ⟨mkDetectedConflict pid r (gen k) :: t, ?_, ?_⟩
        · rw [ht]
          simp [AmendmentWorkflowState.add_conflict]
        · intro c hc
          rcases List.mem_cons.mp hc with hceq | hct
          · exact ⟨pid, r, k, List.mem_cons_self _ _, hceq⟩
          · obtain ⟨p2, r2, k2, hmem, hceq⟩ := hall c hct
            exact ⟨p2, r2, k2, List.mem_cons_of_mem _ hmem, hceq⟩
      · obtain ⟨t, ht, hall⟩ := ih s k
        exact ⟨t, ht, fun c hc => by
          obtain ⟨p2, r2, k2, hmem, hceq⟩ := hall c hc
          exact ⟨p2, r2, k2, List.mem_cons_of_mem _ hmem, hceq⟩⟩

theorem identifyLoop_conflicts_mem {existing : List String}
    {gen : Nat → String} {now : Nat} {resp : List (String × PartyResponse)}
    {s : AmendmentWorkflowState} {k : Nat} {c : ConflictInfo}
    (hc : c ∈ s.conflicts) :
    c ∈ (identifyLoop existing gen now resp s k).conflicts := by
  obtain ⟨t, ht, -⟩ := identifyLoop_new_conflicts existing gen now resp s k
  rw [ht]
  exact List.mem_append_left _ hc

theorem mem_existing_conflict_parties {s : AmendmentWorkflowState}
    {pid : String} :
    pid ∈ existing_conflict_parties s ↔
      ∃ c ∈ s.conflicts, pid ∈ c.affected_parties := by
  unfold existing_conflict_parties
  simp only [List.mem_flatten, List.mem_map]
  constructor
  · rintro ⟨l, ⟨c, hc, rfl⟩, hpid⟩
    exact ⟨c, hc, hpid⟩
  · rintro ⟨c, hc, hpid⟩
    exact ⟨c.affected_parties, ⟨c, hc, rfl⟩, hpid⟩

theorem identifyLoop_parties_mono {existing : List String}
    {gen : Nat → String} {now : Nat} {resp : List (String × PartyResponse)}
    {s : AmendmentWorkflowState} {k : Nat} {pid : String}
    (h : pid ∈ existing_conflict_parties s) :
    pid ∈ existing_conflict_parties (identifyLoop existing gen now resp s k) := by
  obtain ⟨c, hc, hpid⟩ := mem_existing_conflict_parties.mp h
  exact mem_existing_conflict_parties.mpr
    ⟨c, identifyLoop_conflicts_mem hc, hpid⟩

theorem identifyLoop_no_new (existing : List String) (gen : Nat → String)
    (now : Nat) (resp : List (String × PartyResponse))
    (s : AmendmentWorkflowState) (k : Nat)
    (h : ∀ pr ∈ resp, badStatus pr.2 = true → pr.1 ∈ existing) :
    identifyLoop existing gen now resp s k = s := by
  induction resp generalizing s k with
  | nil => rfl
  | cons pr rest ih =>
      obtain ⟨pid, r⟩ := pr
      unfold identifyLoop
      by_cases h1 : pid ∈ existing
      · rw [if_pos h1]
        exact ih s k (fun q hq => h q (List.mem_cons_of_mem _ hq))
      · rw [if_neg h1, if_neg (fun hbad => h1 (h (pid, r) (List.mem_cons_self _ _) hbad))]
        exact ih s k (fun q hq => h q (List.mem_cons_of_mem _ hq))

theorem identifyLoop_covers (existing : List String) (gen : Nat → String)
    (now : Nat) (resp : List (String × PartyResponse))
    (s : AmendmentWorkflowState) (k : Nat)
    (hsub : ∀ p ∈ existing, p ∈ existing_conflict_parties s) :
    ∀ pr ∈ resp, badStatus pr.2 = true →
      pr.1 ∈ existing_conflict_parties
        (identifyLoop existing gen now resp s k) := by
  induction resp generalizing s k with
  | nil => simp
  | cons hd rest ih =>
      obtain ⟨pid, r⟩ := hd
      intro pr hpr hbad
      unfold identifyLoop
      by_cases h1 : pid ∈ existing
      · rw [if_pos h1]
        rcases List.mem_cons.mp hpr with rfl | hmem
        · exact identifyLoop_parties_mono (hsub _ h1)
        · exact ih s k hsub pr hmem hbad
      · rw [if_neg h1]
        by_cases h2 : badStatus r = true
        · rw [if_pos h2]
          have hnew : pid ∈ existing_conflict_parties
              (s.add_conflict (mkDetectedConflict pid r (gen k)) now) := by
            refine mem_existing_conflict_parties.mpr
              ⟨mkDetectedConflict pid r (gen k), ?_, by simp [mkDetectedConflict]⟩
            simp [AmendmentWorkflowState.add_conflict]
          have hsub' : ∀ p ∈ existing, p ∈ existing_conflict_parties
              (s.add_conflict (mkDetectedConflict pid r (gen k)) now) := by
            intro p hp
            obtain ⟨c, hc, hpmem⟩ := mem_existing_conflict_parties.mp (hsub p hp)
            refine mem_existing_conflict_parties.mpr ⟨c, ?_, hpmem⟩
            simp [AmendmentWorkflowState.add_conflict, hc]
          rcases List.mem_cons.mp hpr with rfl | hmem
          · exact identifyLoop_parties_mono hnew
          · exact ih _ _ hsub' pr hmem hbad
        · rw [if_neg h2]
          rcases List.mem_cons.mp hpr with rfl | hmem
          · exact absurd hbad h2
          · exact ih s k hsub pr hmem hbad

/-! ## Claim C5: conflict detection is idempotent -/

/-- **C5.**  Running `_identify_conflicts` twice in succession (no party
response changes in between — the detector itself never touches
`party_responses`) creates no conflicts on the second pass: the length of
`conflicts` is unchanged.  Every rejecting/changes-requesting party is,
after the first pass, an affected party of some recorded conflict, and the
detector skips such parties. -/
theorem conflict_detection_idempotent (s : AmendmentWorkflowState)
    (gen gen2 : Nat → String) (now now2 : Nat) :
    (identify_conflicts (identify_conflicts s gen now) gen2 now2).conflicts.length
      = (identify_conflicts s gen now).conflicts.length := by
  have hcover : ∀ pr ∈ (identify_conflicts s gen now).party_responses,
      badStatus pr.2 = true →
        pr.1 ∈ existing_conflict_parties (identify_conflicts s gen now) := by
    rw [show (identify_conflicts s gen now).party_responses = s.party_responses
      from identifyLoop_party_responses _ _ _ _ _ _]
    exact identifyLoop_covers _ gen now s.party_responses s 0 (fun p hp => hp)
  rw [show identify_conflicts (identify_conflicts s gen now) gen2 now2
      = identify_conflicts s gen now from
    identifyLoop_no_new _ gen2 now2 _ _ 0 hcover]

/-! ## Claim C6: per-party conflict synthesis -/

theorem dictGet_mem {α : Type} {d : List (String × α)} {k : String} {v : α}
    (h : dictGet d k = some v) : (k, v) ∈ d := by
  unfold dictGet at h
  obtain ⟨p, hp, hv⟩ := Option.map_eq_some'.mp h
  have hpd := List.mem_of_find?_eq_some hp
  have hkey : p.1 = k := by simpa using List.find?_some hp
  obtain ⟨p1, p2⟩ := p
  simp only at hkey hv
  subst hkey
  subst hv
  exact hpd

theorem keyNodup_unique {α : Type} {d : List (String × α)}
    (h : (d.map Prod.fst).Nodup) {k : String} {a b : α}
    (ha : (k, a) ∈ d) (hb : (k, b) ∈ d) : a = b := by
  induction d with
  | nil => simp at ha
  | cons hd rest ih =>
      obtain ⟨k2, v2⟩ := hd
      rw [List.map_cons, List.nodup_cons] at h
      rcases List.mem_cons.mp ha with he | hma
      · rcases List.mem_cons.mp hb with he2 | hmb
        · rw [Prod.mk.injEq] at he he2
          rw [he.2, he2.2]
        · exfalso
          rw [Prod.mk.injEq] at he
          refine h.1 ?_
          rw [← he.1]
          exact List.mem_map.mpr ⟨(k, b), hmb, rfl⟩
      · rcases List.mem_cons.mp hb with he2 | hmb
        · exfalso
          rw [Prod.mk.injEq] at he2
          refine h.1 ?_
          rw [← he2.1]
          exact List.mem_map.mpr ⟨(k, a), hma, rfl⟩
        · exact ih h.2 hma hmb

theorem identifyLoop_count_preserve (existing : List String)
    (gen : Nat → String) (now : Nat) (resp : List (String × PartyResponse))
    (s : AmendmentWorkflowState) (k : Nat) {pid : String}
    (h : pid ∉ resp.map Prod.fst) :
    ((identifyLoop existing gen now resp s k).conflicts.countP
        (fun c => c.affected_parties.contains pid))
      = s.conflicts.countP (fun c => c.affected_parties.contains pid) := by
  induction resp generalizing s k with
  | nil => rfl
  | cons pr rest ih =>
      obtain ⟨pid2, r2⟩ := pr
      have hne : pid2 ≠ pid := fun he => h (by simp [he])
      have hrest : pid ∉ rest.map Prod.fst := fun hm => h (by simp [hm])
      unfold identifyLoop
      split_ifs with h1 h2
      · exact ih s k hrest
      · rw [ih _ _ hrest]
        have hne2 : pid ≠ pid2 := fun h => hne h.symm
        simp [AmendmentWorkflowState.add_conflict, List.countP_append,
          List.countP_cons, mkDetectedConflict, hne2]
      · exact ih s k hrest

theorem identifyLoop_count (existing : List String) (gen : Nat → String)
    (now : Nat) (resp : List (String × PartyResponse))
    (s : AmendmentWorkflowState) (k : Nat) {pid : String} {r : PartyResponse}
    (hmem : (pid, r) ∈ resp)
    (hnodup : (resp.map Prod.fst).Nodup)
    (hnotin : pid ∉ existing)
    (hbad : badStatus r = true)
    (hzero : s.conflicts.countP (fun c => c.affected_parties.contains pid) = 0) :
    ((identifyLoop existing gen now resp s k).conflicts.countP
        (fun c => c.affected_parties.contains pid)) = 1 := by
  induction resp generalizing s k with
  | nil => simp at hmem
  | cons pr rest ih =>
      obtain ⟨pid2, r2⟩ := pr
      rw [List.map_cons, List.nodup_cons] at hnodup
      rcases List.mem_cons.mp hmem with he | hmr
      · rw [Prod.mk.injEq] at he
        obtain ⟨hk, hv⟩ := he
        subst hk
        subst hv
        unfold identifyLoop
        rw [if_neg hnotin, if_pos hbad]
        rw [identifyLoop_count_preserve _ _ _ _ _ _ hnodup.1]
        rw [show (AmendmentWorkflowState.add_conflict s
            (mkDetectedConflict pid r (gen k)) now).conflicts
          = s.conflicts ++ [mkDetectedConflict pid r (gen k)] from rfl]
        rw [List.countP_append, hzero]
        simp [List.countP_cons, mkDetectedConflict]
      · have hne : pid2 ≠ pid := by
          intro he
          exact hnodup.1 (he ▸ List.mem_map.mpr ⟨(pid, r), hmr, rfl⟩)
        unfold identifyLoop
        split_ifs with h1 h2
        · exact ih s k hmr hnodup.2 hzero
        · refine ih _ _ hmr hnodup.2 ?_
          rw [show (AmendmentWorkflowState.add_conflict s
              (mkDetectedConflict pid2 r2 (gen k)) now).conflicts
            = s.conflicts ++ [mkDetectedConflict pid2 r2 (gen k)] from rfl]
          rw [List.countP_append, hzero]
          have hne2 : pid ≠ pid2 := fun h => hne h.symm
          simp [List.countP_cons, mkDetectedConflict, hne2]
        · exact ih s k hmr hnodup.2 hzero

/-- Concrete state for the C6 counterexample: party `"p1"` rejected the
proposal, and the only recorded conflict naming `"p1"` is already
**resolved** — so `"p1"` is not the subject of any unresolved conflict. -/
def cs6 : AmendmentWorkflowState :=
  { parties := ["p1"]
    party_responses :=
      [("p1", { party_id := "p1", organization := "Org1",
                status := "rejected", comments := some "too costly" })]
    conflicts :=
      [{ conflict_id := "c0", conflict_type := "unacceptable_terms",
         description := "d0", affected_parties := ["p1"],
         affected_clauses := ["general"], severity := "medium",
         resolution_status := "resolved" }]
    active_conflicts := []
    resolved_conflicts := ["c0"] }

/-- **C6, counterexample.**  At `cs6`, `"p1"` has a `rejected` response and
is not the subject of any unresolved conflict, so the claim demands a new
`ConflictInfo` for `"p1"`; but `_identify_conflicts` builds its skip set
from **all** conflicts — resolved ones included — and appends nothing:
the conflict count is unchanged. -/
theorem conflict_detection_resolved_skip_cex :
    (∀ c ∈ cs6.conflicts,
        ¬(c.resolution_status = "unresolved" ∧ "p1" ∈ c.affected_parties)) ∧
    (dictGet cs6.party_responses "p1").map PartyResponse.status =
      some "rejected" ∧
    (identify_conflicts cs6 (fun _ => "g") 5).conflicts.length
      = cs6.conflicts.length := by decide

/-- **C6, amended.**  For every party whose response status is
`"rejected"` or `"requested_changes"` and who is not already an affected
party of **any** recorded conflict (resolved or unresolved), conflict
detection appends conflicts to the log, and exactly one of the recorded
conflicts afterwards names that party: it has the party as sole affected
party, type `unacceptable_terms` for a rejection and `counter_proposal`
for requested changes, severity mapped from the party's overall risk
level (`identifySeverity`: high→high, medium→medium, low→low, default
`"medium"`), affected clauses from the party's counter-proposal when any
are present, else the sentinel `["general"]`, and it starts unresolved. -/
theorem conflict_detection_per_party (s : AmendmentWorkflowState)
    (gen : Nat → String) (now : Nat) (pid : String) (r : PartyResponse)
    (hfind : dictGet s.party_responses pid = some r)
    (hnodup : (s.party_responses.map Prod.fst).Nodup)
    (hbad : r.status = "rejected" ∨ r.status = "requested_changes")
    (hnotin : pid ∉ existing_conflict_parties s) :
    (∃ t, (identify_conflicts s gen now).conflicts = s.conflicts ++ t) ∧
    ((identify_conflicts s gen now).conflicts.countP
        (fun c => c.affected_parties.contains pid)) = 1 ∧
    ∀ c ∈ (identify_conflicts s gen now).conflicts,
      c.affected_parties.contains pid = true →
        c.affected_parties = [pid] ∧
        c.conflict_type =
          (if r.status = "rejected" then "unacceptable_terms"
           else "counter_proposal") ∧
        c.severity = identifySeverity r ∧
        c.affected_clauses =
          (if (identifyClauses r.proposed_changes).isEmpty then ["general"]
           else identifyClauses r.proposed_changes) ∧
        c.resolution_status = "unresolved" := by
  have hmem : (pid, r) ∈ s.party_responses := dictGet_mem hfind
  have hbadB : badStatus r = true := by
    rcases hbad with h | h <;> simp [badStatus, h]
  have hzero : s.conflicts.countP
      (fun c => c.affected_parties.contains pid) = 0 := by
    rw [List.countP_eq_zero]
    intro c hc hcont
    exact hnotin (mem_existing_conflict_parties.mpr
      ⟨c, hc, by simpa using hcont⟩)
  obtain ⟨t, ht, hall⟩ :=
    identifyLoop_new_conflicts (existing_conflict_parties s) gen now
      s.party_responses s 0
  refine ⟨⟨t, ht⟩, ?_, ?_⟩
  · exact identifyLoop_count _ gen now _ s 0 hmem hnodup hnotin hbadB hzero
  · intro c hc hcont
    rw [show (identify_conflicts s gen now).conflicts = s.conflicts ++ t
      from ht] at hc
    rcases List.mem_append.mp hc with hcs | hct
    · exact absurd hcont (by
        have := List.countP_eq_zero.mp hzero c hcs
        simpa using this)
    · obtain ⟨pid2, r2, k2, hm2, hceq⟩ := hall c hct
      have hpid2 : pid2 = pid := by
        rw [hceq] at hcont
        have : pid = pid2 := by simpa [mkDetectedConflict] using hcont
        exact this.symm
      subst hpid2
      have hr2 : r2 = r := keyNodup_unique hnodup hm2 hmem
      subst hr2
      subst hceq
      exact ⟨rfl, rfl, rfl, rfl, rfl⟩

/-- Concrete input for the C6 witness: one rejecting party with a
high-risk assessment and no counter-proposal. -/
def cs6w : AmendmentWorkflowState :=
  { parties := ["p1"]
    party_responses :=
      [("p1", { party_id := "p1", organization := "Org1",
                status := "rejected",
                risk_assessment := some [("overall_risk_level", .str "high")] })] }

/-- The response stored for `"p1"` in `cs6w`. -/
def cs6wresp : PartyResponse :=
  { party_id := "p1", organization := "Org1", status := "rejected",
    risk_assessment := some [("overall_risk_level", .str "high")] }

/-- Witness for the amended C6 at `cs6w`. -/
theorem conflict_detection_per_party_witness :
    (∃ t, (identify_conflicts cs6w (fun _ => "u0") 3).conflicts =
        cs6w.conflicts ++ t) ∧
    ((identify_conflicts cs6w (fun _ => "u0") 3).conflicts.countP
        (fun c => c.affected_parties.contains "p1")) = 1 ∧
    ∀ c ∈ (identify_conflicts cs6w (fun _ => "u0") 3).conflicts,
      c.affected_parties.contains "p1" = true →
        c.affected_parties = ["p1"] ∧
        c.conflict_type =
          (if cs6wresp.status = "rejected" then "unacceptable_terms"
           else "counter_proposal") ∧
        c.severity = identifySeverity cs6wresp ∧
        c.affected_clauses =
          (if (identifyClauses cs6wresp.proposed_changes).isEmpty then
            ["general"]
           else identifyClauses cs6wresp.proposed_changes) ∧
        c.resolution_status = "unresolved" :=
  conflict_detection_per_party cs6w (fun _ => "u0") 3 "p1" cs6wresp rfl
    (by decide) (Or.inl rfl) (by decide)

/-! ## Party evaluation (`party_node.PartyAgentNode.__call__` and
`orchestrator._party_review_node`)

A party's evaluation goes through the external Reasoning Service, so each
call's outcome is a parameter: `Except String EvalResult` — `.error e`
models the evaluation raising an exception with message `e`, `.ok ev`
models a completed evaluation.  `asyncio.gather` dispatches the pending
parties concurrently; each task writes only its own `party_responses`
slot, so the fan-out/fan-in is embedded as a left fold over the pending
list (the claims settled here do not depend on the interleaving of the
parties' conflict appends). -/

/-- The fields of `_evaluate_amendment_proposal`'s result dict that
`__call__` and `_identify_and_add_conflicts` read
(`unfavorable_changes` stands for
`analysis_details.contract_analysis.unfavorable_changes`, default `[]`). -/
structure EvalResult where
  recommendation : String
  comments : Option String := none
  counter_proposals : Option PyDict := none
  conditions : Option (List String) := none
  risk_assessment : Option PyDict := none
  unfavorable_changes : List PyVal := []

/-- The `PartyResponse` built from a completed evaluation. -/
def evalResponse (pid org : String) (ev : EvalResult) : PartyResponse :=
  { party_id := pid, organization := org, status := ev.recommendation,
    comments := ev.comments, proposed_changes := ev.counter_proposals,
    conditions := ev.conditions, risk_assessment := ev.risk_assessment }

/-- The error-tagged `PartyResponse` built in the `except` branch of
`PartyAgentNode.__call__`. -/
def errorResponse (pid org err : String) : PartyResponse :=
  { party_id := pid, organization := org, status := "error",
    comments := some ("Error during evaluation: " ++ err) }

/-- Affected clauses drawn from `unfavorable_changes`: the `clause` entry
of each dict element (modelled for string-valued clauses, the
pydantic-typed domain), or the element itself when it is a string. -/
def partyClauses (l : List PyVal) : List String :=
  l.filterMap (fun v =>
    match v with
    | .dict d =>
        match dictGet d "clause" with
        | some (.str c) => some c
        | _ => none
    | .str c => some c
    | _ => none)

/-- Severity in `_identify_and_add_conflicts`:
`risk_assessment.get("overall_risk_level", "medium")` through the
severity map with default `"medium"`. -/
def partySeverity (ra : Option PyDict) : String :=
  match (match ra with
         | none => none
         | some d => dictGet d "overall_risk_level") with
  | some (.str l) =>
      if l = "high" then "high"
      else if l = "medium" then "medium"
      else if l = "low" then "low"
      else "medium"
  | _ => "medium"

/-- The `ConflictInfo` the party agent itself records when its
recommendation is a rejection or change request. -/
def partyDetectedConflict (pid : String) (ev : EvalResult) (cid : String) :
    ConflictInfo :=
  { conflict_id := cid
    conflict_type :=
      if ev.recommendation = "rejected" then "unacceptable_terms"
      else "counter_proposal"
    description :=
      (if ev.recommendation = "requested_changes" then "Requested changes: "
       else "Rejected due to: ") ++
        ev.comments.getD "No specific comments provided."
    affected_parties := [pid]
    affected_clauses :=
      (if (partyClauses ev.unfavorable_changes).isEmpty then ["general"]
       else partyClauses ev.unfavorable_changes)
    severity := partySeverity ev.risk_assessment
    resolution_suggestions := some
      [if ev.recommendation = "requested_changes" then "Review counter-proposals"
       else "Re-evaluate proposal based on rejection feedback"]
    resolution_status := "unresolved" }

/-- The body of `PartyAgentNode.__call__` past the already-responded
guard: record the response (error-tagged on failure) and, for a
rejecting/changes-requesting evaluation, record the party's conflict
(`cid` is the UUID its constructor would draw). -/
def party_agent_run (pid org : String) (outcome : Except String EvalResult)
    (cid : String) (now : Nat) (s : AmendmentWorkflowState) :
    AmendmentWorkflowState :=
  match outcome with
  | .ok ev =>
      let s1 := s.add_party_response pid (evalResponse pid org ev) now
      if ev.recommendation = "rejected" ∨ ev.recommendation = "requested_changes"
      then s1.add_conflict (partyDetectedConflict pid ev cid) now
      else s1
  | .error e => s.add_party_response pid (errorResponse pid org e) now

/-- `PartyAgentNode.__call__`: skip when this party already has a
non-`"pending"` response, otherwise run the evaluation. -/
def party_agent_call (pid org : String) (outcome : Except String EvalResult)
    (cid : String) (now : Nat) (s : AmendmentWorkflowState) :
    AmendmentWorkflowState :=
  match dictGet s.party_responses pid with
  | some r =>
      if r.status ≠ "pending" then s
      else party_agent_run pid org outcome cid now s
  | none => party_agent_run pid org outcome cid now s

/-- `_party_review_node`: bump the round counter; on
`review_rounds > max_review_rounds` skip dispatch, append the round-limit
error and fail; otherwise dispatch every registered pending party and
update the status once all parties have responded.  `registered` is
`self.party_agents`' key set, `orgOf`/`evalOf`/`cidOf` give each party's
organization, evaluation outcome and fresh conflict UUID. -/
def party_review_node (registered : List String) (orgOf : String → String)
    (evalOf : String → Except String EvalResult) (cidOf : String → String)
    (now : Nat) (s : AmendmentWorkflowState) : AmendmentWorkflowState :=
  let s1 : AmendmentWorkflowState := { s with review_rounds := s.review_rounds + 1 }
  let maxRounds := s1.workflow_config.max_review_rounds.getD 5
  if s1.review_rounds > maxRounds then
    AmendmentWorkflowState.update_status
      { s1 with errors := s1.errors ++
          [{ node := "party_review", error := "Maximum review rounds exceeded." }] }
      .failed now
  else
    let s2 := (s1.get_pending_parties.filter (fun p => registered.contains p)).foldl
      (fun st pid =>
        party_agent_call pid (orgOf pid) (evalOf pid) (cidOf pid) now st) s1
    if s2.party_responses.length = s2.parties.length then
      if s2.has_active_conflicts then s2.update_status .conflicts_detected now
      else if s2.is_consensus_reached then s2.update_status .consensus_building now
      else s2.update_status .under_review now
    else s2

/-- `n` successive executions of the party-review stage (round-indexed
oracles allow each round's evaluations and UUIDs to differ). -/
def iterate_party_review (registered : List String) (orgOf : String → String)
    (evalOf : Nat → String → Except String EvalResult)
    (cidOf : Nat → String → String) (nowF : Nat → Nat) :
    Nat → AmendmentWorkflowState → AmendmentWorkflowState
  | 0, s => s
  | n + 1, s =>
      party_review_node registered orgOf (evalOf n) (cidOf n) (nowF n)
        (iterate_party_review registered orgOf evalOf cidOf nowF n s)

/-! Bookkeeping lemmas: nothing in a dispatch touches `review_rounds`,
`workflow_config`, `parties` or `errors`. -/

theorem add_party_response_skeleton (s : AmendmentWorkflowState)
    (pid : String) (r : PartyResponse) (now : Nat) :
    (s.add_party_response pid r now).review_rounds = s.review_rounds ∧
    (s.add_party_response pid r now).workflow_config = s.workflow_config ∧
    (s.add_party_response pid r now).parties = s.parties ∧
    (s.add_party_response pid r now).errors = s.errors ∧
    (s.add_party_response pid r now).conflicts = s.conflicts ∧
    (s.add_party_response pid r now).active_conflicts = s.active_conflicts ∧
    (s.add_party_response pid r now).resolved_conflicts = s.resolved_conflicts := by
  unfold AmendmentWorkflowState.add_party_response
  dsimp only
  split_ifs <;> exact ⟨rfl, rfl, rfl, rfl, rfl, rfl, rfl⟩

theorem party_agent_call_skeleton (pid org : String)
    (outcome : Except String EvalResult) (cid : String) (now : Nat)
    (s : AmendmentWorkflowState) :
    (party_agent_call pid org outcome cid now s).review_rounds = s.review_rounds ∧
    (party_agent_call pid org outcome cid now s).workflow_config = s.workflow_config ∧
    (party_agent_call pid org outcome cid now s).parties = s.parties ∧
    (party_agent_call pid org outcome cid now s).errors = s.errors := by
  have hrun : ∀ t : AmendmentWorkflowState,
      (party_agent_run pid org outcome cid now t).review_rounds = t.review_rounds ∧
      (party_agent_run pid org outcome cid now t).workflow_config = t.workflow_config ∧
      (party_agent_run pid org outcome cid now t).parties = t.parties ∧
      (party_agent_run pid org outcome cid now t).errors = t.errors := by
    intro t
    unfold party_agent_run
    cases outcome with
    | error e =>
        obtain ⟨h1, h2, h3, h4, -⟩ := add_party_response_skeleton t pid _ now
        exact ⟨h1, h2, h3, h4⟩
    | ok ev =>
        obtain ⟨h1, h2, h3, h4, -⟩ :=
          add_party_response_skeleton t pid (evalResponse pid org ev) now
        dsimp only
        split_ifs with hb
        · exact ⟨h1, h2, h3, h4⟩
        · exact ⟨h1, h2, h3, h4⟩
  unfold party_agent_call
  cases hg : dictGet s.party_responses pid with
  | none => exact hrun s
  | some r =>
      dsimp only
      split_ifs with hp
      · exact ⟨rfl, rfl, rfl, rfl⟩
      · exact hrun s

theorem dispatch_fold_skeleton (orgOf : String → String)
    (evalOf : String → Except String EvalResult) (cidOf : String → String)
    (now : Nat) (ps : List String) (s : AmendmentWorkflowState) :
    (ps.foldl (fun st pid =>
        party_agent_call pid (orgOf pid) (evalOf pid) (cidOf pid) now st) s).review_rounds
      = s.review_rounds ∧
    (ps.foldl (fun st pid =>
        party_agent_call pid (orgOf pid) (evalOf pid) (cidOf pid) now st) s).workflow_config
      = s.workflow_config ∧
    (ps.foldl (fun st pid =>
        party_agent_call pid (orgOf pid) (evalOf pid) (cidOf pid) now st) s).parties
      = s.parties ∧
    (ps.foldl (fun st pid =>
        party_agent_call pid (orgOf pid) (evalOf pid) (cidOf pid) now st) s).errors
      = s.errors := by
  induction ps generalizing s with
  | nil => exact ⟨rfl, rfl, rfl, rfl⟩
  | cons p rest ih =>
      obtain ⟨h1, h2, h3, h4⟩ :=
        party_agent_call_skeleton p (orgOf p) (evalOf p) (cidOf p) now s
      obtain ⟨g1, g2, g3, g4⟩ :=
        ih (party_agent_call p (orgOf p) (evalOf p) (cidOf p) now s)
      exact ⟨g1.trans h1, g2.trans h2, g3.trans h3, g4.trans h4⟩

theorem party_review_node_rounds (registered : List String)
    (orgOf : String → String) (evalOf : String → Except String EvalResult)
    (cidOf : String → String) (now : Nat) (s : AmendmentWorkflowState) :
    (party_review_node registered orgOf evalOf cidOf now s).review_rounds
      = s.review_rounds + 1 ∧
    (party_review_node registered orgOf evalOf cidOf now s).workflow_config
      = s.workflow_config := by
  unfold party_review_node
  dsimp only
  obtain ⟨g1, g2, -, -⟩ := dispatch_fold_skeleton orgOf evalOf cidOf now
    (List.filter (fun p => registered.contains p)
      ({ s with review_rounds := s.review_rounds + 1 } :
        AmendmentWorkflowState).get_pending_parties)
    { s with review_rounds := s.review_rounds + 1 }
  split_ifs <;> first | exact ⟨rfl, rfl⟩ | exact ⟨g1, g2⟩

theorem iterate_party_review_rounds (registered : List String)
    (orgOf : String → String) (evalOf : Nat → String → Except String EvalResult)
    (cidOf : Nat → String → String) (nowF : Nat → Nat) (n : Nat)
    (s : AmendmentWorkflowState) :
    (iterate_party_review registered orgOf evalOf cidOf nowF n s).review_rounds
      = s.review_rounds + n ∧
    (iterate_party_review registered orgOf evalOf cidOf nowF n s).workflow_config
      = s.workflow_config := by
  induction n with
  | zero => exact ⟨rfl, rfl⟩
  | succ m ih =>
      obtain ⟨h1, h2⟩ := party_review_node_rounds registered orgOf (evalOf m)
        (cidOf m) (nowF m) (iterate_party_review registered orgOf evalOf cidOf nowF m s)
      refine ⟨?_, h2.trans ih.2⟩
      rw [iterate_party_review, h1, ih.1]
      omega

/-! ## Claim C2: hard round limit -/

/-- **C2.**  With `max_review_rounds = R` and a fresh counter, the party
review stage executes at most `R+1` times: the `(R+1)`-st execution raises
`review_rounds` to `R+1 > R`, skips dispatch entirely (`party_responses`
untouched), appends the "Maximum review rounds exceeded." error and
forces `status = failed`. -/
theorem review_round_bound (registered : List String)
    (orgOf : String → String) (evalOf : Nat → String → Except String EvalResult)
    (cidOf : Nat → String → String) (nowF : Nat → Nat)
    (s : AmendmentWorkflowState) (R : Nat)
    (hcfg : s.workflow_config.max_review_rounds = some R)
    (h0 : s.review_rounds = 0) :
    (iterate_party_review registered orgOf evalOf cidOf nowF (R + 1) s).status
        = .failed ∧
    (iterate_party_review registered orgOf evalOf cidOf nowF (R + 1) s).errors
      = (iterate_party_review registered orgOf evalOf cidOf nowF R s).errors ++
          [⟨"party_review", "Maximum review rounds exceeded."⟩] ∧
    (iterate_party_review registered orgOf evalOf cidOf nowF (R + 1) s).party_responses
      = (iterate_party_review registered orgOf evalOf cidOf nowF R s).party_responses ∧
    (iterate_party_review registered orgOf evalOf cidOf nowF (R + 1) s).review_rounds
      = R + 1 := by
  obtain ⟨hrounds, hcfg2⟩ :=
    iterate_party_review_rounds registered orgOf evalOf cidOf nowF R s
  rw [h0] at hrounds
  have hguard : (iterate_party_review registered orgOf evalOf cidOf nowF R s).review_rounds
      + 1 > ((iterate_party_review registered orgOf evalOf cidOf nowF R s).workflow_config.max_review_rounds.getD 5) := by
    rw [hrounds, hcfg2, hcfg]
    simp
  rw [show iterate_party_review registered orgOf evalOf cidOf nowF (R + 1) s
      = party_review_node registered orgOf (evalOf R) (cidOf R) (nowF R)
        (iterate_party_review registered orgOf evalOf cidOf nowF R s) from rfl]
  unfold party_review_node
  dsimp only
  rw [if_pos hguard]
  refine ⟨rfl, rfl, rfl, ?_⟩
  simp [AmendmentWorkflowState.update_status, hrounds]

/-- Concrete input for the C2 witness: one party, `max_review_rounds = 1`,
every round approving. -/
def cs2 : AmendmentWorkflowState :=
  { parties := ["p1"]
    workflow_config := { max_review_rounds := some 1 } }

/-- Witness for C2 at `cs2` with `R = 1`. -/
theorem review_round_bound_witness :
    (iterate_party_review ["p1"] (fun _ => "Org")
        (fun _ _ => .ok { recommendation := "approved" }) (fun _ _ => "cid")
        (fun n => n) (1 + 1) cs2).status = .failed ∧
    (iterate_party_review ["p1"] (fun _ => "Org")
        (fun _ _ => .ok { recommendation := "approved" }) (fun _ _ => "cid")
        (fun n => n) (1 + 1) cs2).errors
      = (iterate_party_review ["p1"] (fun _ => "Org")
          (fun _ _ => .ok { recommendation := "approved" }) (fun _ _ => "cid")
          (fun n => n) 1 cs2).errors ++
        [⟨"party_review", "Maximum review rounds exceeded."⟩] ∧
    (iterate_party_review ["p1"] (fun _ => "Org")
        (fun _ _ => .ok { recommendation := "approved" }) (fun _ _ => "cid")
        (fun n => n) (1 + 1) cs2).party_responses
      = (iterate_party_review ["p1"] (fun _ => "Org")
          (fun _ _ => .ok { recommendation := "approved" }) (fun _ _ => "cid")
          (fun n => n) 1 cs2).party_responses ∧
    (iterate_party_review ["p1"] (fun _ => "Org")
        (fun _ _ => .ok { recommendation := "approved" }) (fun _ _ => "cid")
        (fun n => n) (1 + 1) cs2).review_rounds = 1 + 1 :=
  review_round_bound ["p1"] (fun _ => "Org")
    (fun _ _ => .ok { recommendation := "approved" }) (fun _ _ => "cid")
    (fun n => n) cs2 1 rfl rfl

/-! ## Claim C8: partial failure isolation -/

/-- The response `PartyAgentNode.__call__` ends up recording: the
evaluation's response on success, the error-tagged response on failure. -/
def dispatchResponse (pid org : String) (outcome : Except String EvalResult) :
    PartyResponse :=
  match outcome with
  | .ok ev => evalResponse pid org ev
  | .error e => errorResponse pid org e

theorem dictGet_cons {α : Type} (p : String × α) (l : List (String × α))
    (k : String) :
    dictGet (p :: l) k =
      if (p.1 == k) = true then some p.2 else dictGet l k := by
  unfold dictGet
  rw [List.find?_cons]
  by_cases h : (p.1 == k) = true
  · rw [h]
    simp
  · rw [Bool.of_not_eq_true h]
    simp

theorem dictGet_snoc_self {α : Type} {d : List (String × α)} (k : String)
    (v : α) (h : dictGet d k = none) :
    dictGet (d ++ [(k, v)]) k = some v := by
  induction d with
  | nil =>
      rw [List.nil_append, dictGet_cons]
      simp
  | cons p rest ih =>
      rw [dictGet_cons] at h
      rw [List.cons_append, dictGet_cons]
      by_cases hpk : (p.1 == k) = true
      · rw [if_pos hpk] at h
        exact absurd h (by simp)
      · rw [if_neg hpk] at h
        rw [if_neg hpk]
        exact ih h

theorem dictGet_snoc_ne {α : Type} {d : List (String × α)} {k k2 : String}
    (v : α) (h : k ≠ k2) :
    dictGet (d ++ [(k2, v)]) k = dictGet d k := by
  induction d with
  | nil =>
      rw [List.nil_append, dictGet_cons]
      have hne : (k2 == k) = false := by
        simp only [beq_eq_false_iff_ne]
        exact fun he => h he.symm
      rw [hne]
      simp [dictGet]
  | cons p rest ih =>
      rw [List.cons_append, dictGet_cons, dictGet_cons]
      by_cases hpk : (p.1 == k) = true
      · rw [if_pos hpk, if_pos hpk]
      · rw [if_neg hpk, if_neg hpk]
        exact ih

theorem dictSet_fresh {α : Type} {d : List (String × α)} {k : String}
    (h : dictGet d k = none) (v : α) : dictSet d k v = d ++ [(k, v)] := by
  have hf : d.find? (fun p => p.1 == k) = none := by
    unfold dictGet at h
    exact Option.map_eq_none'.mp h
  have hall := List.find?_eq_none.mp hf
  unfold dictSet
  rw [if_neg]
  intro hany
  obtain ⟨p, hp, hpk⟩ := List.any_eq_true.mp hany
  exact hall p hp hpk

theorem add_party_response_responses (s : AmendmentWorkflowState)
    (pid : String) (r : PartyResponse) (now : Nat) :
    (s.add_party_response pid r now).party_responses =
      dictSet s.party_responses pid r := by
  unfold AmendmentWorkflowState.add_party_response
  dsimp only
  split_ifs <;> rfl

theorem party_agent_run_responses (pid org : String)
    (outcome : Except String EvalResult) (cid : String) (now : Nat)
    (s : AmendmentWorkflowState)
    (hfresh : dictGet s.party_responses pid = none) :
    (party_agent_run pid org outcome cid now s).party_responses
      = s.party_responses ++ [(pid, dispatchResponse pid org outcome)] := by
  unfold party_agent_run dispatchResponse
  cases outcome with
  | error e => rw [add_party_response_responses, dictSet_fresh hfresh]
  | ok ev =>
      dsimp only
      split_ifs with hb
      · rw [show (AmendmentWorkflowState.add_conflict
              (s.add_party_response pid (evalResponse pid org ev) now)
              (partyDetectedConflict pid ev cid) now).party_responses
            = (s.add_party_response pid (evalResponse pid org ev)
                now).party_responses from rfl]
        rw [add_party_response_responses, dictSet_fresh hfresh]
      · rw [add_party_response_responses, dictSet_fresh hfresh]

theorem party_agent_call_fresh (pid org : String)
    (outcome : Except String EvalResult) (cid : String) (now : Nat)
    (s : AmendmentWorkflowState)
    (hfresh : dictGet s.party_responses pid = none) :
    party_agent_call pid org outcome cid now s
      = party_agent_run pid org outcome cid now s := by
  unfold party_agent_call
  rw [hfresh]

theorem dispatch_fold_spec (orgOf : String → String)
    (evalOf : String → Except String EvalResult) (cidOf : String → String)
    (now : Nat) (ps : List String) (s : AmendmentWorkflowState)
    (hnd : ps.Nodup)
    (hfresh : ∀ p ∈ ps, dictGet s.party_responses p = none) :
    (ps.foldl (fun st pid =>
        party_agent_call pid (orgOf pid) (evalOf pid) (cidOf pid) now st)
        s).party_responses.length
      = s.party_responses.length + ps.length ∧
    (∀ p, p ∉ ps →
      dictGet (ps.foldl (fun st pid =>
          party_agent_call pid (orgOf pid) (evalOf pid) (cidOf pid) now st)
          s).party_responses p
        = dictGet s.party_responses p) ∧
    (∀ p ∈ ps,
      dictGet (ps.foldl (fun st pid =>
          party_agent_call pid (orgOf pid) (evalOf pid) (cidOf pid) now st)
          s).party_responses p
        = some (dispatchResponse p (orgOf p) (evalOf p))) := by
  induction ps generalizing s with
  | nil => simp
  | cons q rest ih =>
      rw [List.nodup_cons] at hnd
      have hq : dictGet s.party_responses q = none := hfresh q (by simp)
      have hresp1 : (party_agent_call q (orgOf q) (evalOf q) (cidOf q) now
            s).party_responses
          = s.party_responses ++ [(q, dispatchResponse q (orgOf q) (evalOf q))] := by
        rw [party_agent_call_fresh _ _ _ _ _ _ hq,
          party_agent_run_responses _ _ _ _ _ _ hq]
      have hfresh1 : ∀ p ∈ rest,
          dictGet (party_agent_call q (orgOf q) (evalOf q) (cidOf q) now
            s).party_responses p = none := by
        intro p hp
        have hne : p ≠ q := fun he => hnd.1 (he ▸ hp)
        rw [hresp1, dictGet_snoc_ne _ hne]
        exact hfresh p (by simp [hp])
      obtain ⟨ihlen, ihout, ihin⟩ :=
        ih (party_agent_call q (orgOf q) (evalOf q) (cidOf q) now s) hnd.2 hfresh1
      refine ⟨?_, ?_, ?_⟩
      · rw [List.foldl_cons, ihlen, hresp1]
        simp only [List.length_append, List.length_cons, List.length_nil,
          List.length_singleton]
        omega
      · intro p hp
        have hpq : p ≠ q := fun he => hp (by simp [he])
        have hrest : p ∉ rest := fun hep => hp (by simp [hep])
        rw [List.foldl_cons, ihout p hrest, hresp1, dictGet_snoc_ne _ hpq]
      · intro p hp
        rcases List.mem_cons.mp hp with rfl | hpr
        · rw [List.foldl_cons, ihout p hnd.1, hresp1]
          exact dictGet_snoc_self _ _ hq
        · rw [List.foldl_cons]
          exact ihin p hpr

/-- **C8, counterexample.**  One of two dispatched party evaluations
raises (`"boom"` for `"p2"`): the other response is still recorded and the
failing party gets an error-tagged response, but **no** aggregate error is
appended to `errors` — the claim's "an aggregate error is appended to
errors" fails (the party node's `except` branch and the gather loop only
record the response and print). -/
def cs8 : AmendmentWorkflowState :=
  { parties := ["p1", "p2"]
    workflow_config := { max_review_rounds := some 2 } }

theorem partial_failure_no_error_log_cex :
    (dictGet (party_review_node ["p1", "p2"] (fun p => p)
        (fun p => if p = "p2" then .error "boom"
                  else .ok { recommendation := "approved" })
        (fun _ => "cid") 4 cs8).party_responses "p1").map PartyResponse.status
      = some "approved" ∧
    (dictGet (party_review_node ["p1", "p2"] (fun p => p)
        (fun p => if p = "p2" then .error "boom"
                  else .ok { recommendation := "approved" })
        (fun _ => "cid") 4 cs8).party_responses "p2").map PartyResponse.status
      = some "error" ∧
    (party_review_node ["p1", "p2"] (fun p => p)
        (fun p => if p = "p2" then .error "boom"
                  else .ok { recommendation := "approved" })
        (fun _ => "cid") 4 cs8).errors = [] := by decide

/-- **C8, amended.**  If one of N dispatched party evaluations raises, the
other N−1 responses are still recorded and the review round completes
(every party ends up with a response, the failing one error-tagged, and
the node proceeds to a non-failed status) — but no aggregate error is
appended to `errors`: the error log is left unchanged. -/
theorem partial_failure_isolation (registered : List String)
    (orgOf : String → String) (evalOf : String → Except String EvalResult)
    (cidOf : String → String) (now : Nat) (s : AmendmentWorkflowState)
    (hresp : s.party_responses = [])
    (hnd : s.parties.Nodup)
    (hreg : ∀ p ∈ s.parties, registered.contains p = true)
    (hround : s.review_rounds + 1 ≤ s.workflow_config.max_review_rounds.getD 5) :
    (∀ p ∈ s.parties, ∃ r,
      dictGet (party_review_node registered orgOf evalOf cidOf now
          s).party_responses p = some r ∧
        ((∃ e, evalOf p = .error e ∧ r.status = "error") ∨
         (∃ ev, evalOf p = .ok ev ∧ r.status = ev.recommendation))) ∧
    (party_review_node registered orgOf evalOf cidOf now
        s).party_responses.length = s.parties.length ∧
    (party_review_node registered orgOf evalOf cidOf now s).errors = s.errors ∧
    (party_review_node registered orgOf evalOf cidOf now s).status
      ≠ .failed := by
  have hpend : ({ s with review_rounds := s.review_rounds + 1 } :
      AmendmentWorkflowState).get_pending_parties = s.parties := by
    unfold AmendmentWorkflowState.get_pending_parties
    dsimp only
    rw [hresp]
    exact List.filter_eq_self.mpr (fun a _ => rfl)
  have hfilter : s.parties.filter (fun p => registered.contains p)
      = s.parties := List.filter_eq_self.mpr hreg
  have hfresh : ∀ p ∈ s.parties,
      dictGet ({ s with review_rounds := s.review_rounds + 1 } :
        AmendmentWorkflowState).party_responses p = none := by
    intro p _
    show dictGet s.party_responses p = none
    rw [hresp]
    rfl
  obtain ⟨hlen, -, hin⟩ := dispatch_fold_spec orgOf evalOf cidOf now s.parties
    { s with review_rounds := s.review_rounds + 1 } hnd hfresh
  obtain ⟨-, -, hpar, herr⟩ := dispatch_fold_skeleton orgOf evalOf cidOf now
    s.parties { s with review_rounds := s.review_rounds + 1 }
  have hlen2 : (s.parties.foldl (fun st pid =>
      party_agent_call pid (orgOf pid) (evalOf pid) (cidOf pid) now st)
      { s with review_rounds := s.review_rounds + 1 }).party_responses.length
      = s.parties.length := by
    rw [hlen, hresp]
    simp
  unfold party_review_node
  dsimp only
  rw [if_neg (by omega), hpend, hfilter]
  rw [if_pos (by rw [hlen2, hpar])]
  have hmain : ∀ p ∈ s.parties, ∃ r,
      dictGet (s.parties.foldl (fun st pid =>
        party_agent_call pid (orgOf pid) (evalOf pid) (cidOf pid) now st)
        { s with review_rounds := s.review_rounds + 1 }).party_responses p
        = some r ∧
      ((∃ e, evalOf p = .error e ∧ r.status = "error") ∨
       (∃ ev, evalOf p = .ok ev ∧ r.status = ev.recommendation)) := by
    intro p hp
    refine ⟨dispatchResponse p (orgOf p) (evalOf p), hin p hp, ?_⟩
    cases hev : evalOf p with
    | error e =>
        exact Or.inl ⟨e, rfl, by simp [dispatchResponse, hev, errorResponse]⟩
    | ok ev =>
        exact Or.inr ⟨ev, rfl, by simp [dispatchResponse, hev, evalResponse]⟩
  split_ifs with hb1 hb2
  · exact ⟨hmain, hlen2, herr.trans rfl, by simp [AmendmentWorkflowState.update_status]⟩
  · exact ⟨hmain, hlen2, herr.trans rfl, by simp [AmendmentWorkflowState.update_status]⟩
  · exact ⟨hmain, hlen2, herr.trans rfl, by simp [AmendmentWorkflowState.update_status]⟩

/-- Witness for the amended C8 at `cs8` (party `"p2"` fails, `"p1"`
approves). -/
theorem partial_failure_isolation_witness :
    (∀ p ∈ cs8.parties, ∃ r,
      dictGet (party_review_node ["p1", "p2"] (fun p => p)
          (fun p => if p = "p2" then .error "boom"
                    else .ok { recommendation := "approved" })
          (fun _ => "cid2") 6 cs8).party_responses p = some r ∧
        ((∃ e, (if p = "p2" then (.error "boom" : Except String EvalResult)
                else .ok { recommendation := "approved" }) = .error e ∧
            r.status = "error") ∨
         (∃ ev, (if p = "p2" then (.error "boom" : Except String EvalResult)
                else .ok { recommendation := "approved" }) = .ok ev ∧
            r.status = ev.recommendation))) ∧
    (party_review_node ["p1", "p2"] (fun p => p)
        (fun p => if p = "p2" then .error "boom"
                  else .ok { recommendation := "approved" })
        (fun _ => "cid2") 6 cs8).party_responses.length = cs8.parties.length ∧
    (party_review_node ["p1", "p2"] (fun p => p)
        (fun p => if p = "p2" then .error "boom"
                  else .ok { recommendation := "approved" })
        (fun _ => "cid2") 6 cs8).errors = cs8.errors ∧
    (party_review_node ["p1", "p2"] (fun p => p)
        (fun p => if p = "p2" then .error "boom"
                  else .ok { recommendation := "approved" })
        (fun _ => "cid2") 6 cs8).status ≠ .failed :=
  partial_failure_isolation ["p1", "p2"] (fun p => p)
    (fun p => if p = "p2" then .error "boom"
              else .ok { recommendation := "approved" })
    (fun _ => "cid2") 6 cs8 rfl (by decide) (by decide) (by decide)

/-! ## Mediation (`conflict_resolution_node._apply_resolution` and the
resolve step of `__call__`) -/

/-- `_apply_resolution`: store the proposed solution on the conflict and,
when the resolution requires party approval, mark every affected party's
response status `"pending_re_review"`.  (The `node_outputs`
`resolved_changes`/`conflict_resolutions` bookkeeping writes only omitted
fields.)  Note the source sets the status directly on the response object
— it does **not** go through `add_party_response`, so
`received_approvals` is left untouched. -/
def apply_resolution (s : AmendmentWorkflowState) (c : ConflictInfo)
    (proposed_solution : String) (requires_party_approval : Bool) :
    AmendmentWorkflowState :=
  let s1 : AmendmentWorkflowState :=
    { s with conflicts := s.conflicts.map (fun c0 =>
        if c0.conflict_id = c.conflict_id then
          { c0 with resolution_suggestions := some [proposed_solution] }
        else c0) }
  if requires_party_approval then
    { s1 with party_responses := s1.party_responses.map (fun pr =>
        if pr.1 ∈ c.affected_parties then
          (pr.1, { pr.2 with status := "pending_re_review" })
        else pr) }
  else s1

/-- The successful-resolution path of `ConflictResolutionNode.__call__`
for one conflict: apply the validated resolution, then mark the conflict
resolved (`state.resolve_conflict`). -/
def mediation_resolve (s : AmendmentWorkflowState) (c : ConflictInfo)
    (proposed_solution : String) (requires_party_approval : Bool)
    (now : Nat) : AmendmentWorkflowState :=
  ((apply_resolution s c proposed_solution
      requires_party_approval).resolve_conflict c.conflict_id now).2

/-! ## Claim C9: re-approval after mediation -/

/-- The conflict of the C9 failing input: requires re-approval, affects
`"p1"` only. -/
def cs9conf : ConflictInfo :=
  { conflict_id := "c1", conflict_type := "counter_proposal",
    description := "d", affected_parties := ["p1"],
    affected_clauses := ["general"], severity := "medium" }

/-- The C9 failing input: both parties approved, one active conflict
affecting `"p1"`. -/
def cs9 : AmendmentWorkflowState :=
  { parties := ["p1", "p2"]
    party_responses :=
      [("p1", { party_id := "p1", organization := "A", status := "approved" }),
       ("p2", { party_id := "p2", organization := "B", status := "approved" })]
    received_approvals := ["p1", "p2"]
    conflicts := [cs9conf]
    active_conflicts := ["c1"] }

/-- **C9 (code bug).**  Mediation resolves `cs9conf` with
`requires_party_approval = True`.  As the claim says, `"p1"`'s response
status becomes `"pending_re_review"` and `"c1"` leaves
`active_conflicts`; but `get_pending_parties` (which recognizes only the
literal `"pending"`) returns `[]` — the next review round dispatches
**nobody**, not "only the affected parties" — and `"p1"`'s recorded
approval is *not* cleared from `received_approvals`. -/
theorem pending_re_review_not_redispatched :
    (dictGet (mediation_resolve cs9 cs9conf "sol" true 7).party_responses
        "p1").map PartyResponse.status = some "pending_re_review" ∧
    (mediation_resolve cs9 cs9conf "sol" true 7).active_conflicts = [] ∧
    (mediation_resolve cs9 cs9conf "sol" true 7).resolved_conflicts = ["c1"] ∧
    (mediation_resolve cs9 cs9conf "sol" true 7).get_pending_parties = [] ∧
    (mediation_resolve cs9 cs9conf "sol" true 7).received_approvals
      = ["p1", "p2"] := by decide

/-! ## Reachable states and the conflict-partition invariant (C4)

The remaining orchestrator nodes that touch workflow state are embedded
below so that reachability can range over every state-mutating operation
of the system: `initiate_amendment`'s initial state,
`_consensus_building_node` (parameterized by the mediated proposal, an
LLM product), `_legal_review_node` (parameterized by the compliance
checker's verdict) and `_version_control_node` (parameterized by the
merged document).  UUID freshness appears as hypotheses on the
conflict-creating steps. -/

/-- The state `initiate_amendment` builds (every other field takes its
pydantic default; `workflow_config.update(...)` is the `cfg` argument). -/
def initial_state (parties : List String) (pcs : PyDict)
    (cfg : WorkflowConfig) : AmendmentWorkflowState :=
  { parties := parties, proposed_changes := pcs, workflow_config := cfg }

/-- `_consensus_building_node`: when a mediated proposal exists, install
it, reset every party's response to `"pending"`, clear approvals and the
whole conflict log, and go back under review; otherwise append the
missing-proposal error. -/
def consensus_building_node (s : AmendmentWorkflowState)
    (proposal : Option PyDict) (now : Nat) : AmendmentWorkflowState :=
  match proposal with
  | some nc =>
      AmendmentWorkflowState.update_status
        { s with
          proposed_changes := nc
          party_responses := s.party_responses.map (fun pr =>
            if pr.1 ∈ s.parties then (pr.1, { pr.2 with status := "pending" })
            else pr)
          received_approvals := []
          active_conflicts := []
          conflicts := [] }
        .under_review now
  | none =>
      { s with errors := s.errors ++
          [{ node := "consensus_building",
             error := "No consensus proposal found to apply." }] }

/-- `_legal_review_node`, parameterized by the compliance checker's
`compliance_status` verdict (document-version bookkeeping omitted). -/
def legal_review_node (s : AmendmentWorkflowState)
    (complianceStatus : String) (now : Nat) : AmendmentWorkflowState :=
  let s1 : AmendmentWorkflowState :=
    { s with compliance_checks := [("compliance_status", complianceStatus)] }
  if complianceStatus = "compliant" then
    AmendmentWorkflowState.update_status
      { s1 with legal_review_status := "approved" } .final_approval now
  else { s1 with legal_review_status := "requires_changes" }

/-- `_version_control_node`, parameterized by the external merger's
output (`document_versions` bookkeeping omitted; the node collects
approved changes with the same loop as `_get_approved_changes`). -/
def version_control_node (s : AmendmentWorkflowState) (merged : String)
    (now : Nat) : AmendmentWorkflowState :=
  let s1 : AmendmentWorkflowState :=
    if (get_approved_changes s).isEmpty then s
    else { s with final_document := some merged }
  s1.update_status .final_approval now

/-- States reachable through the embedded operations, from an initial
state.  UUID freshness of generated conflict ids (relative to the ids
already classified as resolved) is a hypothesis on the conflict-creating
steps, modelling `uuid4`'s uniqueness. -/
inductive Reachable : AmendmentWorkflowState → Prop where
  | init (parties : List String) (pcs : PyDict) (cfg : WorkflowConfig) :
      Reachable (initial_state parties pcs cfg)
  | add_response {s : AmendmentWorkflowState} (pid : String)
      (r : PartyResponse) (now : Nat) :
      Reachable s → Reachable (s.add_party_response pid r now)
  | add_conflict_fresh {s : AmendmentWorkflowState} (c : ConflictInfo)
      (now : Nat) : Reachable s → c.conflict_id ∉ s.resolved_conflicts →
      Reachable (s.add_conflict c now)
  | resolve {s : AmendmentWorkflowState} (cid : String) (now : Nat) :
      Reachable s → Reachable (s.resolve_conflict cid now).2
  | set_status {s : AmendmentWorkflowState} (st : AmendmentStatus)
      (now : Nat) : Reachable s → Reachable (s.update_status st now)
  | consensus {s : AmendmentWorkflowState} (proposal : Option PyDict)
      (now : Nat) : Reachable s →
      Reachable (consensus_building_node s proposal now)
  | apply_res {s : AmendmentWorkflowState} (c : ConflictInfo) (sol : String)
      (req : Bool) : Reachable s → Reachable (apply_resolution s c sol req)
  | identify {s : AmendmentWorkflowState} (gen : Nat → String) (now : Nat) :
      Reachable s → (∀ j, gen j ∉ s.resolved_conflicts) →
      Reachable (identify_conflicts s gen now)
  | review {s : AmendmentWorkflowState} (registered : List String)
      (orgOf : String → String) (evalOf : String → Except String EvalResult)
      (cidOf : String → String) (now : Nat) : Reachable s →
      (∀ p, cidOf p ∉ s.resolved_conflicts) →
      Reachable (party_review_node registered orgOf evalOf cidOf now s)
  | legal {s : AmendmentWorkflowState} (complianceStatus : String)
      (now : Nat) : Reachable s →
      Reachable (legal_review_node s complianceStatus now)
  | version {s : AmendmentWorkflowState} (merged : String) (now : Nat) :
      Reachable s → Reachable (version_control_node s merged now)

/-- The partition property: every recorded conflict's id is in exactly
one of `active_conflicts` / `resolved_conflicts`. -/
def conflictPartition (s : AmendmentWorkflowState) : Prop :=
  ∀ c ∈ s.conflicts,
    (c.conflict_id ∈ s.active_conflicts ∧
      c.conflict_id ∉ s.resolved_conflicts) ∨
    (c.conflict_id ∉ s.active_conflicts ∧
      c.conflict_id ∈ s.resolved_conflicts)

/-- Inductive invariant: the partition, plus `active_conflicts` free of
duplicates (needed so that `list.remove` really expels an id). -/
def conflictInv (s : AmendmentWorkflowState) : Prop :=
  conflictPartition s ∧ s.active_conflicts.Nodup

theorem conflictInv_transfer {s t : AmendmentWorkflowState}
    (hc : t.conflicts = s.conflicts)
    (ha : t.active_conflicts = s.active_conflicts)
    (hr : t.resolved_conflicts = s.resolved_conflicts)
    (h : conflictInv s) : conflictInv t := by
  refine ⟨?_, ?_⟩
  · intro c hcm
    rw [hc] at hcm
    rw [ha, hr]
    exact h.1 c hcm
  · rw [ha]
    exact h.2

theorem add_conflict_fields (s : AmendmentWorkflowState) (c : ConflictInfo)
    (now : Nat) :
    (s.add_conflict c now).conflicts = s.conflicts ++ [c] ∧
    (s.add_conflict c now).active_conflicts =
      (if c.conflict_id ∈ s.active_conflicts then s.active_conflicts
       else s.active_conflicts ++ [c.conflict_id]) ∧
    (s.add_conflict c now).resolved_conflicts = s.resolved_conflicts :=
  ⟨rfl, rfl, rfl⟩

theorem conflictInv_add_conflict {s : AmendmentWorkflowState}
    (c : ConflictInfo) (now : Nat) (h : conflictInv s)
    (hfresh : c.conflict_id ∉ s.resolved_conflicts) :
    conflictInv (s.add_conflict c now) := by
  obtain ⟨hp, hnd⟩ := h
  obtain ⟨hcf, haf, hrf⟩ := add_conflict_fields s c now
  refine ⟨?_, ?_⟩
  · intro c2 hc2
    rw [hcf] at hc2
    rw [haf, hrf]
    rcases List.mem_append.mp hc2 with hold | hnew
    · rcases hp c2 hold with ⟨hin, hout⟩ | ⟨hout, hin⟩
      · left
        refine ⟨?_, hout⟩
        split_ifs with hm
        · exact hin
        · exact List.mem_append_left _ hin
      · right
        refine ⟨?_, hin⟩
        split_ifs with hm
        · exact hout
        · intro hmm
          rcases List.mem_append.mp hmm with h1 | h2
          · exact hout h1
          · exact hfresh ((show c2.conflict_id = c.conflict_id by
              simpa using h2) ▸ hin)
    · have hc2c : c2 = c := by simpa using hnew
      subst hc2c
      left
      refine ⟨?_, hfresh⟩
      split_ifs with hm
      · exact hm
      · exact List.mem_append_right _ (by simp)
  · rw [haf]
    split_ifs with hm
    · exact hnd
    · simp only [List.nodup_append, List.nodup_cons, List.not_mem_nil,
        not_false_iff, List.nodup_nil, and_true, true_and]
      simp only [List.disjoint_singleton]
      exact ⟨hnd, hm⟩

theorem resolveConflictList_shape :
    ∀ {cs : List ConflictInfo} {cid : String} {cs2 : List ConflictInfo},
      resolveConflictList cs cid = some cs2 →
      ∀ c2 ∈ cs2, ∃ c ∈ cs, c2.conflict_id = c.conflict_id := by
  intro cs
  induction cs with
  | nil =>
      intro cid cs2 h
      simp [resolveConflictList] at h
  | cons c rest ih =>
      intro cid cs2 h c2 hc2
      unfold resolveConflictList at h
      split_ifs at h with hcc
      · injection h with h
        subst h
        rcases List.mem_cons.mp hc2 with rfl | hm
        · exact ⟨c, by simp, rfl⟩
        · exact ⟨c2, by simp [hm], rfl⟩
      · obtain ⟨cs3, hcs3, hmap⟩ := Option.map_eq_some'.mp h
        subst hmap
        rcases List.mem_cons.mp hc2 with rfl | hm
        · exact ⟨c2, by simp, rfl⟩
        · obtain ⟨c0, hc0, hid⟩ := ih hcs3 c2 hm
          exact ⟨c0, by simp [hc0], hid⟩

theorem resolveConflictList_found :
    ∀ {cs : List ConflictInfo} {cid : String},
      (∃ c ∈ cs, c.conflict_id = cid) →
      ∃ cs2, resolveConflictList cs cid = some cs2 := by
  intro cs
  induction cs with
  | nil =>
      rintro cid ⟨c, hc, -⟩
      simp at hc
  | cons c rest ih =>
      rintro cid ⟨c0, hc0, hid⟩
      unfold resolveConflictList
      split_ifs with hcc
      · exact ⟨_, rfl⟩
      · rcases List.mem_cons.mp hc0 with rfl | hm
        · exact absurd hid hcc
        · obtain ⟨cs2, hcs2⟩ := ih ⟨c0, hm, hid⟩
          exact ⟨c :: cs2, by rw [hcs2]; rfl⟩

theorem resolve_conflict_fields (s : AmendmentWorkflowState) (cid : String)
    (now : Nat) (cs2 : List ConflictInfo)
    (h : resolveConflictList s.conflicts cid = some cs2) :
    (s.resolve_conflict cid now).2.conflicts = cs2 ∧
    (s.resolve_conflict cid now).2.active_conflicts =
      s.active_conflicts.erase cid ∧
    (s.resolve_conflict cid now).2.resolved_conflicts =
      (if cid ∈ s.resolved_conflicts then s.resolved_conflicts
       else s.resolved_conflicts ++ [cid]) := by
  unfold AmendmentWorkflowState.resolve_conflict
  rw [h]
  exact ⟨rfl, rfl, rfl⟩

theorem conflictInv_resolve {s : AmendmentWorkflowState} (cid : String)
    (now : Nat) (h : conflictInv s) :
    conflictInv (s.resolve_conflict cid now).2 := by
  cases hres : resolveConflictList s.conflicts cid with
  | none =>
      have heq : (s.resolve_conflict cid now).2 = s := by
        unfold AmendmentWorkflowState.resolve_conflict
        rw [hres]
      rw [heq]
      exact h
  | some cs2 =>
      obtain ⟨hc, ha, hr⟩ := resolve_conflict_fields s cid now cs2 hres
      refine ⟨?_, ?_⟩
      · intro c2 hc2
        rw [hc] at hc2
        rw [ha, hr]
        obtain ⟨c0, hc0, hid⟩ := resolveConflictList_shape hres c2 hc2
        by_cases hcc : c2.conflict_id = cid
        · right
          refine ⟨?_, ?_⟩
          · rw [hcc]
            intro hmm
            exact (h.2.mem_erase_iff.mp hmm).1 rfl
          · rw [hcc]
            split_ifs with hm
            · exact hm
            · exact List.mem_append_right _ (by simp)
        · have hcase := h.1 c0 hc0
          rw [← hid] at hcase
          rcases hcase with ⟨hin, hout⟩ | ⟨hout, hin⟩
          · left
            refine ⟨(List.mem_erase_of_ne hcc).mpr hin, ?_⟩
            split_ifs with hm
            · exact hout
            · intro hmm
              rcases List.mem_append.mp hmm with h1 | h2
              · exact hout h1
              · exact hcc (by simpa using h2)
          · right
            refine ⟨fun hmm => hout (List.mem_of_mem_erase hmm), ?_⟩
            split_ifs with hm
            · exact hin
            · exact List.mem_append_left _ hin
      · rw [ha]
        exact h.2.erase cid

theorem apply_resolution_fields (s : AmendmentWorkflowState)
    (c : ConflictInfo) (sol : String) (req : Bool) :
    (apply_resolution s c sol req).conflicts = s.conflicts.map (fun c0 =>
        if c0.conflict_id = c.conflict_id then
          { c0 with resolution_suggestions := some [sol] }
        else c0) ∧
    (apply_resolution s c sol req).active_conflicts = s.active_conflicts ∧
    (apply_resolution s c sol req).resolved_conflicts =
      s.resolved_conflicts := by
  unfold apply_resolution
  dsimp only
  split_ifs <;> exact ⟨rfl, rfl, rfl⟩

theorem conflictInv_apply_resolution {s : AmendmentWorkflowState}
    (c : ConflictInfo) (sol : String) (req : Bool) (h : conflictInv s) :
    conflictInv (apply_resolution s c sol req) := by
  obtain ⟨hcf, haf, hrf⟩ := apply_resolution_fields s c sol req
  refine ⟨?_, ?_⟩
  · intro c2 hc2
    rw [hcf] at hc2
    rw [haf, hrf]
    obtain ⟨c0, hc0, hc2eq⟩ := List.mem_map.mp hc2
    have hid : c2.conflict_id = c0.conflict_id := by
      rw [← hc2eq]
      split_ifs <;> rfl
    rw [hid]
    exact h.1 c0 hc0
  · rw [haf]
    exact h.2

theorem identifyLoop_resolved (existing : List String) (gen : Nat → String)
    (now : Nat) (resp : List (String × PartyResponse))
    (s : AmendmentWorkflowState) (k : Nat) :
    (identifyLoop existing gen now resp s k).resolved_conflicts =
      s.resolved_conflicts := by
  induction resp generalizing s k with
  | nil => rfl
  | cons pr rest ih =>
      obtain ⟨pid, r⟩ := pr
      unfold identifyLoop
      split_ifs
      · exact ih s k
      · exact (ih _ _).trans rfl
      · exact ih s k

theorem conflictInv_identifyLoop (existing : List String)
    (gen : Nat → String) (now : Nat) (resp : List (String × PartyResponse))
    (s : AmendmentWorkflowState) (k : Nat) (h : conflictInv s)
    (hfresh : ∀ j, gen j ∉ s.resolved_conflicts) :
    conflictInv (identifyLoop existing gen now resp s k) := by
  induction resp generalizing s k with
  | nil => exact h
  | cons pr rest ih =>
      obtain ⟨pid, r⟩ := pr
      unfold identifyLoop
      split_ifs with h1 h2
      · exact ih s k h hfresh
      · refine ih _ _ (conflictInv_add_conflict _ now h (hfresh k)) ?_
        intro j
        show gen j ∉ (s.add_conflict (mkDetectedConflict pid r (gen k))
          now).resolved_conflicts
        exact hfresh j
      · exact ih s k h hfresh

theorem party_agent_call_conflictInv (pid org : String)
    (outcome : Except String EvalResult) (cid : String) (now : Nat)
    (s : AmendmentWorkflowState) (h : conflictInv s)
    (hfresh : cid ∉ s.resolved_conflicts) :
    conflictInv (party_agent_call pid org outcome cid now s) ∧
    (party_agent_call pid org outcome cid now s).resolved_conflicts
      = s.resolved_conflicts := by
  have hrun : conflictInv (party_agent_run pid org outcome cid now s) ∧
      (party_agent_run pid org outcome cid now s).resolved_conflicts
        = s.resolved_conflicts := by
    unfold party_agent_run
    cases outcome with
    | error e =>
        obtain ⟨-, -, -, -, h5, h6, h7⟩ := add_party_response_skeleton s pid _ now
        exact ⟨conflictInv_transfer h5 h6 h7 h, h7⟩
    | ok ev =>
        obtain ⟨-, -, -, -, h5, h6, h7⟩ :=
          add_party_response_skeleton s pid (evalResponse pid org ev) now
        have hs1 : conflictInv (s.add_party_response pid
            (evalResponse pid org ev) now) := conflictInv_transfer h5 h6 h7 h
        dsimp only
        split_ifs with hb
        · refine ⟨conflictInv_add_conflict _ now hs1 (by rw [h7]; exact hfresh), ?_⟩
          show (s.add_party_response pid (evalResponse pid org ev)
            now).resolved_conflicts = s.resolved_conflicts
          exact h7
        · exact ⟨hs1, h7⟩
  unfold party_agent_call
  cases hg : dictGet s.party_responses pid with
  | none => exact hrun
  | some r =>
      dsimp only
      split_ifs with hp
      · exact ⟨h, rfl⟩
      · exact hrun

theorem conflictInv_dispatch_fold (orgOf : String → String)
    (evalOf : String → Except String EvalResult) (cidOf : String → String)
    (now : Nat) (ps : List String) (s : AmendmentWorkflowState)
    (h : conflictInv s) (hfresh : ∀ p, cidOf p ∉ s.resolved_conflicts) :
    conflictInv (ps.foldl (fun st pid =>
      party_agent_call pid (orgOf pid) (evalOf pid) (cidOf pid) now st) s) := by
  induction ps generalizing s with
  | nil => exact h
  | cons q rest ih =>
      obtain ⟨h1, h2⟩ := party_agent_call_conflictInv q (orgOf q) (evalOf q)
        (cidOf q) now s h (hfresh q)
      refine ih _ h1 ?_
      intro p
      rw [h2]
      exact hfresh p

theorem conflictInv_party_review (registered : List String)
    (orgOf : String → String) (evalOf : String → Except String EvalResult)
    (cidOf : String → String) (now : Nat) (s : AmendmentWorkflowState)
    (h : conflictInv s) (hfresh : ∀ p, cidOf p ∉ s.resolved_conflicts) :
    conflictInv (party_review_node registered orgOf evalOf cidOf now s) := by
  have hs2 : conflictInv ((List.filter (fun p => registered.contains p)
      ({ s with review_rounds := s.review_rounds + 1 } :
        AmendmentWorkflowState).get_pending_parties).foldl
      (fun st pid =>
        party_agent_call pid (orgOf pid) (evalOf pid) (cidOf pid) now st)
      { s with review_rounds := s.review_rounds + 1 }) :=
    conflictInv_dispatch_fold orgOf evalOf cidOf now _
      { s with review_rounds := s.review_rounds + 1 }
      (conflictInv_transfer rfl rfl rfl h) (fun p => hfresh p)
  unfold party_review_node
  dsimp only
  split_ifs
  · exact conflictInv_transfer rfl rfl rfl h
  · exact conflictInv_transfer rfl rfl rfl hs2
  · exact conflictInv_transfer rfl rfl rfl hs2
  · exact conflictInv_transfer rfl rfl rfl hs2
  · exact hs2

theorem conflictInv_consensus (s : AmendmentWorkflowState)
    (proposal : Option PyDict) (now : Nat) (h : conflictInv s) :
    conflictInv (consensus_building_node s proposal now) := by
  cases proposal with
  | none => exact conflictInv_transfer rfl rfl rfl h
  | some nc =>
      refine ⟨?_, ?_⟩
      · intro c hc
        exact absurd hc (List.not_mem_nil c)
      · exact List.nodup_nil

theorem conflictInv_legal (s : AmendmentWorkflowState)
    (complianceStatus : String) (now : Nat) (h : conflictInv s) :
    conflictInv (legal_review_node s complianceStatus now) := by
  unfold legal_review_node
  dsimp only
  split_ifs <;> exact conflictInv_transfer rfl rfl rfl h

theorem conflictInv_version (s : AmendmentWorkflowState) (merged : String)
    (now : Nat) (h : conflictInv s) :
    conflictInv (version_control_node s merged now) := by
  unfold version_control_node
  dsimp only
  split_ifs <;> exact conflictInv_transfer rfl rfl rfl h

theorem conflictInv_reachable {s : AmendmentWorkflowState}
    (h : Reachable s) : conflictInv s := by
  induction h with
  | init parties pcs cfg =>
      exact ⟨fun c hc => absurd hc (List.not_mem_nil c), List.nodup_nil⟩
  | add_response pid r now _ ih =>
      obtain ⟨-, -, -, -, h5, h6, h7⟩ := add_party_response_skeleton _ pid r now
      exact conflictInv_transfer h5 h6 h7 ih
  | add_conflict_fresh c now _ hfresh ih =>
      exact conflictInv_add_conflict c now ih hfresh
  | resolve cid now _ ih => exact conflictInv_resolve cid now ih
  | set_status st now _ ih => exact conflictInv_transfer rfl rfl rfl ih
  | consensus proposal now _ ih => exact conflictInv_consensus _ proposal now ih
  | apply_res c sol req _ ih => exact conflictInv_apply_resolution c sol req ih
  | identify gen now _ hfresh ih =>
      exact conflictInv_identifyLoop _ gen now _ _ 0 ih hfresh
  | review registered orgOf evalOf cidOf now _ hfresh ih =>
      exact conflictInv_party_review registered orgOf evalOf cidOf now _ ih hfresh
  | legal complianceStatus now _ ih =>
      exact conflictInv_legal _ complianceStatus now ih
  | version merged now _ ih => exact conflictInv_version _ merged now ih

/-! ## Claim C4: conflict id partition -/

/-- **C4.**  In every reachable state, each recorded conflict's id is in
exactly one of `active_conflicts` / `resolved_conflicts` (the "newly
appended" window of the claim never actually occurs: `add_conflict`
classifies the id immediately); in particular `add_conflict` puts the new
conflict's id into `active_conflicts`, and `resolve_conflict` on a
recorded id removes it from `active_conflicts` and adds it to
`resolved_conflicts`. -/
theorem conflict_partition_reachable (s : AmendmentWorkflowState)
    (h : Reachable s) :
    (∀ c ∈ s.conflicts,
      (c.conflict_id ∈ s.active_conflicts ∧
        c.conflict_id ∉ s.resolved_conflicts) ∨
      (c.conflict_id ∉ s.active_conflicts ∧
        c.conflict_id ∈ s.resolved_conflicts)) ∧
    (∀ c now, c.conflict_id ∈ (s.add_conflict c now).active_conflicts) ∧
    (∀ cid now, (∃ c ∈ s.conflicts, c.conflict_id = cid) →
      cid ∉ (s.resolve_conflict cid now).2.active_conflicts ∧
      cid ∈ (s.resolve_conflict cid now).2.resolved_conflicts) := by
  have hinv := conflictInv_reachable h
  refine ⟨hinv.1, ?_, ?_⟩
  · intro c now
    obtain ⟨-, haf, -⟩ := add_conflict_fields s c now
    rw [haf]
    split_ifs with hm
    · exact hm
    · exact List.mem_append_right _ (by simp)
  · rintro cid now ⟨c, hc, hid⟩
    obtain ⟨cs2, hres⟩ := resolveConflictList_found ⟨c, hc, hid⟩
    obtain ⟨-, ha, hr⟩ := resolve_conflict_fields s cid now cs2 hres
    refine ⟨?_, ?_⟩
    · rw [ha]
      intro hmm
      exact (hinv.2.mem_erase_iff.mp hmm).1 rfl
    · rw [hr]
      split_ifs with hm
      · exact hm
      · exact List.mem_append_right _ (by simp)

/-- The conflict added in the C4 witness run. -/
def cs4c : ConflictInfo :=
  { conflict_id := "cX", conflict_type := "counter_proposal",
    description := "d", affected_parties := ["p1"],
    affected_clauses := ["general"], severity := "low" }

/-- A concrete reachable state: initial state, one conflict added, then
resolved. -/
def cs4 : AmendmentWorkflowState :=
  (((initial_state ["p1"] [] defaultWorkflowConfig).add_conflict cs4c
      1).resolve_conflict "cX" 2).2

/-- Witness for C4 at the concrete reachable state `cs4`. -/
theorem conflict_partition_reachable_witness :
    (∀ c ∈ cs4.conflicts,
      (c.conflict_id ∈ cs4.active_conflicts ∧
        c.conflict_id ∉ cs4.resolved_conflicts) ∨
      (c.conflict_id ∉ cs4.active_conflicts ∧
        c.conflict_id ∈ cs4.resolved_conflicts)) ∧
    (∀ c now, c.conflict_id ∈ (cs4.add_conflict c now).active_conflicts) ∧
    (∀ cid now, (∃ c ∈ cs4.conflicts, c.conflict_id = cid) →
      cid ∉ (cs4.resolve_conflict cid now).2.active_conflicts ∧
      cid ∈ (cs4.resolve_conflict cid now).2.resolved_conflicts) :=
  conflict_partition_reachable cs4
    (Reachable.resolve "cX" 2
      (Reachable.add_conflict_fresh cs4c 1
        (Reachable.init ["p1"] [] defaultWorkflowConfig) (by decide)))

end CLM
